import Mathlib

set_option autoImplicit false
set_option maxRecDepth 10000
set_option maxHeartbeats 2000000

/-! Verification of the module transformation and cross-rebinding pipeline of
fluids/numba.py.

The pipeline is embedded shallowly: Python module attribute dictionaries are
association lists living in an explicit store (so that the aliasing between a
function's private global-lookup scope and the dictionary of the module that
defined it is represented faithfully), and the pipeline itself is a family of
executable Lean functions mirroring `create_numerics` and `transform_module`
line by line.  Compiled functions, rewritten source text, materialized arrays
and module snapshots are explicit constructors of an object type. -/

/-- Python scalar values, identified by their concrete type exactly as tested
by `type(x) in (float, int, complex)` in fluids/numba.py.  Float and complex
payloads are abstract tags, since only the type of the value matters to the
pipeline.  `sbool` is separate because `type(True) is bool`, which is not a
member of the tuple `(float, int, complex)`. -/
inductive Scalar where
| sint (n : Int)
| sfloat (t : Nat)
| scplx (t : Nat)
| sbool (b : Bool)
| sstr (s : String)
| snone
deriving DecidableEq, Repr

/-- An element of a row of a nested Python list attribute.  The pipeline only
inspects `type(r[0])` of a row, so entries that are not scalars are abstracted
to a tag. -/
inductive Cell where
| csc (s : Scalar)
| cother (t : Nat)
deriving DecidableEq, Repr

/-- A top-level element of a Python list attribute: a scalar, a nested list
(row), or some other object. -/
inductive Elem where
| esc (s : Scalar)
| erow (cells : List Cell)
| eother (t : Nat)
deriving DecidableEq, Repr

/-- Python objects as far as the fluids/numba.py pipeline distinguishes them.
A plain function `funcO src g` carries its source text (what
`inspect.getsource` returns) and the store reference of its `__globals__`
dictionary.  A numba dispatcher `jitO src g` wraps a `py_func` with that same
source and globals reference (`numba.jit(cache=False)(obj)`); `vecO` is the
`numba.vectorize` counterpart.  `listO` is a Python `list` literal, `arrO` the
`np.array` built from it, `modO r` a module object whose attribute dictionary
lives at store reference `r`, and `otherO` any other object. -/
inductive Obj where
| scalarO (s : Scalar)
| listO (xs : List Elem)
| arrO (xs : List Elem)
| funcO (src : String) (g : Nat)
| jitO (src : String) (g : Nat)
| vecO (src : String) (g : Nat)
| modO (r : Nat)
| otherO (t : Nat)
deriving DecidableEq, Repr

/-- Whether an object is a plain Python function, as tested by
`isinstance(obj, types.FunctionType)` (a numba dispatcher is not). -/
def Obj.isPlainFunc : Obj → Bool
| .funcO _ _ => true
| _ => false

/-- A Python dictionary, as an association list of distinct keys. -/
abbrev Dict := List (String × Obj)

/-- Keys of a dictionary, in insertion order. -/
def dkeys (d : Dict) : List String := d.map Prod.fst

/-- Lookup `d[k]`, returning the value of the first binding of `k`. -/
def dget : Dict → String → Option Obj
| [], _ => none
| p :: rest, k => if p.1 = k then some p.2 else dget rest k

/-- Assignment `d[k] = v`: replace the binding of `k` in place, or append it
as a new last binding, matching CPython dictionary semantics. -/
def dset : Dict → String → Obj → Dict
| [], k, v => [(k, v)]
| p :: rest, k, v => if p.1 = k then (k, v) :: rest else p :: dset rest k v

/-- Update `d.update(other)`: iterate the bindings of `other` in order and
assign each into `d`. -/
def dupd (d : Dict) (other : Dict) : Dict :=
  other.foldl (fun acc p => dset acc p.1 p.2) d

/-- Build a dictionary from a binding list, later bindings of the same key
overwriting earlier ones (as module-level assignments do). -/
def dof (l : List (String × Obj)) : Dict := dupd [] l

/-- The store of all live module attribute dictionaries, indexed by reference.
Reference `r` is allocated exactly when `r < mem.length`. -/
structure Store where
  mem : List Dict
deriving DecidableEq, Repr

/-- Read the dictionary at reference `r` (unallocated references read as
empty; the pipeline never reads them). -/
def sread (st : Store) (r : Nat) : Dict := st.mem.getD r []

/-- Overwrite the dictionary at reference `r`. -/
def swrite (st : Store) (r : Nat) (d : Dict) : Store := ⟨st.mem.set r d⟩

/-- Every dictionary in the store has distinct keys (true of every CPython
dictionary). -/
def storeWF (st : Store) : Prop := ∀ d ∈ st.mem, (dkeys d).Nodup

instance storeWFDecidable (st : Store) : Decidable (storeWF st) := by
  unfold storeWF; infer_instance

/-! String machinery: literal (non-regex) substring replacement with the
semantics of Python `str.replace`, literal splitting with the semantics of
Python `str.split(sep)`, substring tests, and extraction of the textual
default value of a keyword parameter from a `def` line.  All functions use
structural recursion (with a character-count fuel where needed) so that they
evaluate inside the kernel. -/

/-- One pass of literal replacement over a character list, scanning left to
right and never re-scanning replaced text; `fuel` bounds the number of steps
and is instantiated with the length of the scanned text. -/
def replaceAux (pat rep : List Char) : Nat → List Char → List Char
| _, [] => []
| 0, l => l
| fuel + 1, c :: rest =>
  if pat.isPrefixOf (c :: rest) then
    rep ++ replaceAux pat rep fuel (List.drop (pat.length - 1) rest)
  else
    c :: replaceAux pat rep fuel rest

/-- Python `s.replace(pat, rep)` for a non-empty literal pattern (every rule
applied by fluids/numba.py has a non-empty pattern). -/
def pyReplace (s pat rep : String) : String :=
  if pat.data.isEmpty then s
  else ⟨replaceAux pat.data rep.data s.data.length s.data⟩

/-- Whether `pat` occurs as a contiguous substring. -/
def hasSub (pat : List Char) : List Char → Bool
| [] => pat.isEmpty
| c :: rest => pat.isPrefixOf (c :: rest) || hasSub pat rest

/-- Whether the literal `pat` occurs in `s`. -/
def strContains (s pat : String) : Bool := hasSub pat.data s.data

/-- The suffix following the first occurrence of `pat`, if any. -/
def afterSub (pat : List Char) : List Char → Option (List Char)
| [] => if pat.isEmpty then some [] else none
| c :: rest =>
  if pat.isPrefixOf (c :: rest) then some (List.drop pat.length (c :: rest))
  else afterSub pat rest

/-- The textual default value of keyword parameter `param` in a function
source text: the characters between the first `param=` and the next `,` or
`)`. -/
def defaultOf (param : String) (src : String) : Option String :=
  match afterSub (param.data ++ [Char.ofNat 61]) src.data with
  | none => none
  | some suf => some ⟨suf.takeWhile (fun ch => ch ≠ ',' ∧ ch ≠ ')')⟩

/-- Python `s.split(sep)` for non-empty `sep`, via fuel-bounded structural
recursion. -/
def splitAux (sep : List Char) : Nat → List Char → List Char → List (List Char)
| _, acc, [] => [acc.reverse]
| 0, acc, l => [acc.reverse ++ l]
| fuel + 1, acc, c :: rest =>
  if sep.isPrefixOf (c :: rest) then
    acc.reverse :: splitAux sep fuel [] (List.drop (sep.length - 1) rest)
  else
    splitAux sep fuel (c :: acc) rest

/-- Python `s.split(sep)` (`sep` non-empty everywhere it is used:
`mod.__name__.split(mod_name + '.')`). -/
def pySplit (s sep : String) : List String :=
  if sep.data.isEmpty then [s]
  else (splitAux sep.data s.data.length [] s.data).map (fun l => ⟨l⟩)

/-! The catalogue of source submodules.  fluids/numba.py iterates
`normal.submodules` and re-executes each submodule from its import spec
(`importlib.util.find_spec` / `module_from_spec` / `loader.exec_module`).
The submodules themselves are not part of fluids/numba.py, so a submodule is
described by what its isolated top-level execution produces: an ordered
binding list, the export list `__all__`, and the optional
`__numba_additional_funcs__` list. -/

/-- What a single top-level binding of a module evaluates to when the module
is executed into a fresh module object: either a `def` statement, whose
function object closes over the fresh module dictionary as its
`__globals__`, or a value that does not depend on the executing module. -/
inductive BDesc where
| defFunc (src : String)
| valB (o : Obj)
deriving DecidableEq, Repr

/-- Description of one source submodule: dotted name, whether its isolated
top-level execution succeeds, the exception token it raises otherwise, its
binding list, its `__all__`, and its optional
`__numba_additional_funcs__`. -/
structure ModOrigin where
  modName : String
  runOk : Bool
  errTok : Nat
  binds : List (String × BDesc)
  expAll : List String
  additional : Option (List String)
deriving DecidableEq, Repr

/-- Names processed for a snapshot: `list(SUBMOD.__all__)`, extended with
`SUBMOD.__numba_additional_funcs__` when that attribute exists (the
`try`/`except: pass` at the top of both loops). -/
def namesOf (m : ModOrigin) : List String := m.expAll ++ m.additional.getD []

/-- Errors raised while the pipeline runs.  `execErr e` is the exception a
submodule's own top-level code raised during isolated execution, propagated
unchanged (fluids/numba.py installs no handler around
`SUBMOD_COPY.loader.exec_module(SUBMOD)`); the others model `AttributeError`,
`KeyError`, `IndexError` and `inspect.getsource` failure. -/
inductive PErr where
| execErr (e : Nat)
| attrErr (m : String) (a : String)
| keyErr (k : String)
| idxErr
| srcErr (a : String)
deriving DecidableEq, Repr

/-- Evaluate a binding description inside the module whose fresh dictionary
lives at reference `r`. -/
def realize (r : Nat) : BDesc → Obj
| .defFunc src => .funcO src r
| .valB o => o

/-- `find_spec` / `module_from_spec` / `loader.exec_module`: allocate a brand
new module dictionary and execute the module's top-level code into it.  A
failing top level raises its own exception and no snapshot is produced. -/
def execModule (st : Store) (m : ModOrigin) : Except PErr (Store × Nat) :=
  if m.runOk then
    let r := st.mem.length
    .ok (⟨st.mem ++ [dof (m.binds.map (fun p => (p.1, realize r p.2)))]⟩, r)
  else .error (.execErr m.errTok)

/-- The fixed rewrite sequence of fluids/numba.py lines 91-95, applied to the
source text of `secant` and `brenth` in declaration order, each rule a
literal (non-regex) `str.replace`:
strip `, kwargs={}` and `, **kwargs` from the signature and calls, strip the
`iterations=i, point=p, err=q1` and `, q1=q1, p1=p1, q0=q0, p0=p0` diagnostic
keyword arguments, truncate the `%d iterations" %maxiter` message formatting,
and change the `ytol=None` default to `ytol=1e100`. -/
def patchSolver (src : String) : String :=
  let s1 := pyReplace src (", kwargs=\x7b\x7d") ("")
  let s2 := pyReplace s1 (", **kwargs") ("")
  let s3 := pyReplace s2 ("iterations=i, point=p, err=q1") ("")
  let s4 := pyReplace s3 (", q1=q1, p1=p1, q0=q0, p0=p0") ("")
  let s5 := pyReplace s4 ("%d iterations\" %maxiter") ("\"")
  pyReplace s5 ("ytol=None") ("ytol=1e100")

/-- One iteration of the solver-rewrite loop (lines 89-98) for solver name
`s`: fetch the function object from the snapshot at `nr`, take its source
text, patch it, re-execute the patched `def` with `exec(source, globals(),
globals())` — which binds the new function into the fluids.numba module
dictionary at `gG` with that same dictionary as its `__globals__` — and
install the new function back onto the snapshot with `setattr`. -/
def rewriteSolver (st : Store) (gG nr : Nat) (mn s : String) :
    Except PErr Store :=
  match dget (sread st nr) s with
  | none => .error (.attrErr mn s)
  | some (.funcO src _) =>
    let patched := patchSolver src
    let st1 := swrite st gG (dset (sread st gG) s (.funcO patched gG))
    .ok (swrite st1 nr (dset (sread st1 nr) s (.funcO patched gG)))
  | some _ => .error (.srcErr s)

/-- The generic compilation loop of `create_numerics` (lines 103-110): for
each name, fetch the attribute; plain functions are wrapped with
`numba.jit(cache=False, forceobj=False)` (the `numerics_forceobj` set is
emptied on line 102 before this loop runs) and written back both into the
snapshot dictionary and into the `replaced` ledger; every other object is
left alone. -/
def compileNames (st : Store) (nr : Nat) (mn : String) (rep : Dict) :
    List String → Except PErr (Store × Dict)
| [] => .ok (st, rep)
| n :: rest =>
  match dget (sread st nr) n with
  | none => .error (.attrErr mn n)
  | some (.funcO src g) =>
    let j := Obj.jitO src g
    compileNames (swrite st nr (dset (sread st nr) n j)) nr mn (dset rep n j)
      rest
  | some _ => compileNames st nr mn rep rest

/-- Lines 111-113: unconditionally rebind `bisplev`, `splev` and `lambertw`,
in the ledger and on the snapshot, to the ledger entries of `py_bisplev`,
`py_splev` and `py_lambertw` (a `KeyError` if a `py_` entry is missing). -/
def pyOverride1 (st : Store) (nr : Nat) (rep : Dict) (dst srcK : String) :
    Except PErr (Store × Dict) :=
  match dget rep srcK with
  | none => .error (.keyErr srcK)
  | some v => .ok (swrite st nr (dset (sread st nr) dst v), dset rep dst v)

/-- The whole `create_numerics(replaced, vec=False)` (lines 70-114): load a
fresh snapshot of fluids.numerics, rewrite the two solvers on the allow-list
`['secant', 'brenth']`, compile every plain function among
`__all__ + __numba_additional_funcs__`, then apply the three `py_` overrides.
Returns the updated ledger, the store, and the snapshot reference.  (The
`vec` argument of the original only selects `conv_fun`, which this function
never uses — line 108 calls `numba.jit` directly — so it is omitted.) -/
def create_numerics (st : Store) (gG : Nat) (numerics : ModOrigin)
    (rep : Dict) : Except PErr (Dict × Store × Nat) :=
  match execModule st numerics with
  | .error e => .error e
  | .ok (st1, nr) =>
    match rewriteSolver st1 gG nr numerics.modName ("secant") with
    | .error e => .error e
    | .ok st2 =>
      match rewriteSolver st2 gG nr numerics.modName ("brenth") with
      | .error e => .error e
      | .ok st3 =>
        match compileNames st3 nr numerics.modName rep (namesOf numerics) with
        | .error e => .error e
        | .ok (st4, rep1) =>
          match pyOverride1 st4 nr rep1 ("bisplev") ("py_bisplev") with
          | .error e => .error e
          | .ok (st5, rep2) =>
            match pyOverride1 st5 nr rep2 ("splev") ("py_splev") with
            | .error e => .error e
            | .ok (st6, rep3) =>
              match pyOverride1 st6 nr rep3 ("lambertw") ("py_lambertw") with
              | .error e => .error e
              | .ok (st7, rep4) => .ok (rep4, st7, nr)

/-! The array materializer and the per-submodule transformation loop of
`transform_module` (lines 122-179). -/

/-- `type(x) in (float, int, complex)`. -/
def isNumScalar : Scalar → Bool
| .sint _ => true
| .sfloat _ => true
| .scplx _ => true
| _ => false

/-- The flat test `type(obj[0]) in (float, int, complex)` on a top-level list
element. -/
def elemNum : Elem → Bool
| .esc s => isNumScalar s
| _ => false

/-- The row test `type(r) is list and len(r) and type(r[0]) in (float, int,
complex)` on a top-level list element. -/
def rowOk : Elem → Bool
| .erow (c :: _) =>
  match c with
  | .csc s => isNumScalar s
  | _ => false
| _ => false

/-- The row-element test `type(c) in (float, int, complex)`. -/
def cellNum : Cell → Bool
| .csc s => isNumScalar s
| _ => false

/-- Lines 162-167: an attribute is converted with `np.array` exactly when it
is a non-empty list whose first element is a numeric scalar, or a non-empty
list all of whose elements are non-empty lists with a numeric first element.
Only first elements are ever inspected. -/
def eligibleArr : Obj → Option Obj
| .listO (e :: rest) =>
  if elemNum e then some (.arrO (e :: rest))
  else if (e :: rest).all rowOk then some (.arrO (e :: rest))
  else none
| _ => none

/-- The `to_do` dictionary of lines 159-167: iterate every key of the
snapshot dictionary and collect the `np.array` conversions of the eligible
attributes. -/
def tdStep (td : Dict) (p : String × Obj) : Dict :=
  match eligibleArr p.2 with
  | some a => dset td p.1 a
  | none => td

/-- The fold over `SUBMOD.__dict__.keys()` building `to_do`. -/
def toDoOf (d : Dict) : Dict := d.foldl tdStep []

/-- Stated from the SPEC's wording (not from the source), for comparison
with the source predicate `eligibleArr`: a rectangular numeric array literal
is a non-empty flat list of numeric scalars, or a non-empty list of
equal-length non-empty rows of numeric scalars. -/
def specRectNumeric : Obj → Bool
| .listO [] => false
| .listO (e :: rest) =>
  ((e :: rest).all (fun x => elemNum x)) ||
  (match e with
   | .erow r0 =>
     (e :: rest).all (fun x =>
       match x with
       | .erow rr => (rr.length == r0.length) && (!(rr.length == 0)) &&
           rr.all (fun c => cellNum c)
       | _ => false)
   | _ => false)
| _ => false

/-- `mod.__name__.split(mod_name + '.')[1]` (line 139), an `IndexError` when
the split yields no second component. -/
def shortNameE (pkg modName : String) : Except PErr String :=
  match (pySplit modName (pkg ++ (String.singleton (Char.ofNat 46)))).get? 1 with
  | some s => .ok s
  | none => .error .idxErr

/-- The compile loop of `transform_module` (lines 148-157): for each name in
`__all__ + __numba_additional_funcs__`, plain functions are wrapped with
`conv_fun(cache=False)` (`numba.jit` or `numba.vectorize`), written back into
the snapshot and collected in `new_objs`; then — function or not — the
(possibly wrapped) object is written into the `__funcs` ledger. -/
def compileLoopT (st : Store) (r : Nat) (mn : String) (funcs : Dict)
    (vec : Bool) : List String → Except PErr (Store × Dict × List Obj)
| [] => .ok (st, funcs, [])
| n :: rest =>
  match dget (sread st r) n with
  | none => .error (.attrErr mn n)
  | some (.funcO src g) =>
    let j := if vec then Obj.vecO src g else Obj.jitO src g
    match compileLoopT (swrite st r (dset (sread st r) n j)) r mn
        (dset funcs n j) vec rest with
    | .error e => .error e
    | .ok (st', funcs', objs) => .ok (st', funcs', j :: objs)
  | some o => compileLoopT st r mn (dset funcs n o) vec rest

/-- Lines 171-175 (taken only when `vec` is false): for each newly compiled
dispatcher `t`, update the dictionary serving as `t.py_func.__globals__` —
which, for a function defined by the snapshot's own top-level code, is the
snapshot dictionary itself — with `SUBMOD.__dict__`, `to_do` and
`replaced`, in that order. -/
def bcStep (r : Nat) (td rep : Dict) (st : Store) (t : Obj) : Store :=
  match t with
  | .jitO _ g =>
    let st1 := swrite st g (dupd (sread st g) (sread st r))
    let st2 := swrite st1 g (dupd (sread st1 g) td)
    swrite st2 g (dupd (sread st2 g) rep)
  | _ => st

/-- The loop over `new_objs`. -/
def broadcastObjs (st : Store) (r : Nat) (td rep : Dict)
    (objs : List Obj) : Store :=
  objs.foldl (bcStep r td rep) st

/-- The mutable state threaded through `transform_module`. -/
structure TState where
  st : Store
  funcs : Dict
  newMods : List Nat
  newObjs : List Obj
deriving DecidableEq, Repr

/-- One iteration of the `for mod in normal.submodules` loop (lines
131-175): load an isolated snapshot, seed it with `replaced`, record it in
`__funcs` under its short name, compile the exported callables, materialize
the literal arrays, and rebind the compiled functions' lookup scopes. -/
def processMod (pkg : String) (rep : Dict) (vec : Bool) (ts : TState)
    (m : ModOrigin) : Except PErr TState :=
  match execModule ts.st m with
  | .error e => .error e
  | .ok (st1, r) =>
    let st2 := swrite st1 r (dupd (sread st1 r) rep)
    match shortNameE pkg m.modName with
    | .error e => .error e
    | .ok short =>
      let funcs1 := dset ts.funcs short (.modO r)
      match compileLoopT st2 r m.modName funcs1 vec (namesOf m) with
      | .error e => .error e
      | .ok (st3, funcs2, objs) =>
        let td := toDoOf (sread st3 r)
        let st4 := swrite st3 r (dupd (sread st3 r) td)
        let funcs3 := dupd funcs2 td
        let st5 := if vec then st4 else broadcastObjs st4 r td rep objs
        .ok ⟨st5, funcs3, ts.newMods ++ [r], ts.newObjs ++ objs⟩

/-- The submodule loop itself. -/
def transformGo (pkg : String) (rep : Dict) (vec : Bool) :
    List ModOrigin → TState → Except PErr TState
| [], ts => .ok ts
| m :: rest, ts =>
  match processMod pkg rep vec ts m with
  | .error e => .error e
  | .ok ts' => transformGo pkg rep vec rest ts'

/-- Lines 178-179: after every submodule has been processed, update every
snapshot dictionary with the whole `__funcs` ledger. -/
def fbStep (funcs : Dict) (st : Store) (r : Nat) : Store :=
  swrite st r (dupd (sread st r) funcs)

/-- Lines 178-179 as a fold over `new_mods`. -/
def finalBroadcast (ts : TState) : TState :=
  ⟨ts.newMods.foldl (fbStep ts.funcs) ts.st, ts.funcs, ts.newMods,
    ts.newObjs⟩

/-- `transform_module(normal, __funcs, replaced, vec)` (lines 122-179). -/
def transform_module (pkg : String) (cat : List ModOrigin) (st0 : Store)
    (funcs0 rep : Dict) (vec : Bool) : Except PErr TState :=
  match transformGo pkg rep vec cat ⟨st0, funcs0, [], []⟩ with
  | .error e => .error e
  | .ok ts => .ok (finalBroadcast ts)

/-- The whole import of fluids.numba (lines 116-188): allocate the module's
own globals dictionary `g0` at `gG`, run `create_numerics` starting from
`replaced = {'sum': np.sum}`, run `transform_module` with an empty `__funcs`
and `vec=False`, apply the late alias override
`__funcs['friction'].Colebrook = __funcs['Colebrook'] = __funcs['Clamond']`
(line 185), and publish with `globals().update(__funcs)` then
`globals().update(replaced)` (lines 187-188).  Returns the final store, the
globals reference, `__funcs` and `replaced`; the published namespace is the
dictionary at the globals reference. -/
def numbaImport (st0 : Store) (g0 : Dict) (numerics : ModOrigin)
    (pkg : String) (cat : List ModOrigin) :
    Except PErr (Store × Nat × Dict × Dict) :=
  let gG := st0.mem.length
  let stG : Store := ⟨st0.mem ++ [g0]⟩
  match create_numerics stG gG numerics [("sum", Obj.otherO 0)] with
  | .error e => .error e
  | .ok (rep, stA, _) =>
    match transform_module pkg cat stA [] rep false with
    | .error e => .error e
    | .ok ts =>
      match dget ts.funcs ("Clamond") with
      | none => .error (.keyErr ("Clamond"))
      | some cl =>
        match dget ts.funcs ("friction") with
        | some (.modO fr) =>
          let stB := swrite ts.st fr (dset (sread ts.st fr) ("Colebrook") cl)
          let funcs2 := dset ts.funcs ("Colebrook") cl
          let stC := swrite stB gG (dupd (dupd (sread stB gG) funcs2) rep)
          .ok (stC, gG, funcs2, rep)
        | some _ => .error (.keyErr ("friction"))
        | none => .error (.keyErr ("friction"))

/-! Concrete instances used by the witness theorems: a small catalogue in the
shape of the fluids library. -/

/-- Modelled from the spec: the source text of `fluids.numerics.secant` is not
under src/; per the spec it is an opaque solver source whose signature carries
default-valued keyword parameters (`ytol=None`), a keyword-argument bag
(`kwargs={}` forwarded with `**kwargs`) and diagnostic message formatting
referencing runtime iteration counters, which the rewrite rules target. -/
def srcSecant : String :=
  "def secant(func, x0, xtol=1.48e-8, ytol=None, kwargs=\x7b\x7d):\n    q1 = func(x0, **kwargs)\n    raise UnconvergedError(\"Failed to converge after %d iterations\" %maxiter)"

/-- Modelled from the spec: the source text of `fluids.numerics.brenth`
(not under src/), carrying the same backend-incompatible features plus the
`, q1=q1, p1=p1, q0=q0, p0=p0` diagnostic keyword arguments. -/
def srcBrenth : String :=
  "def brenth(f, xa, xb, args=(), ytol=None, kwargs=\x7b\x7d):\n    fa = f(xa, **kwargs)\n    raise NotBoundedError(msg, q1=q1, p1=p1, q0=q0, p0=p0)"

/-- A small stand-in for the fluids.numerics submodule. -/
def demoNumerics : ModOrigin :=
  ⟨"fluids.numerics", true, 0,
    [("secant", .defFunc srcSecant),
     ("brenth", .defFunc srcBrenth),
     ("py_bisplev", .defFunc "def py_bisplev(x, y, tck): return x"),
     ("py_splev", .defFunc "def py_splev(x, tck): return x"),
     ("py_lambertw", .defFunc "def py_lambertw(y): return y"),
     ("horner", .defFunc "def horner(coeffs, x): return x")],
    ["secant", "brenth", "py_bisplev", "py_splev", "py_lambertw", "horner"],
    none⟩

/-- A small stand-in for the fluids.friction submodule, with one non-exported
flat numeric list attribute and one non-exported ragged nested list
attribute. -/
def demoFriction : ModOrigin :=
  ⟨"fluids.friction", true, 0,
    [("Clamond", .defFunc "def Clamond(Re, eD, fast=False): return Re"),
     ("Colebrook", .defFunc "def Colebrook(Re, eD): return eD"),
     ("friction_factor",
       .defFunc "def friction_factor(Re, eD): return Colebrook(Re, eD)"),
     ("LAMINAR_TRANSITION_PIPE",
       .valB (.listO [.esc (.sfloat 0), .esc (.sfloat 1)])),
     ("fd_table",
       .valB (.listO [.erow [.csc (.sint 1), .csc (.sint 2)],
                      .erow [.csc (.sint 3)]]))],
    ["Clamond", "Colebrook", "friction_factor"],
    some []⟩

/-- A small stand-in for the fluids.core submodule. -/
def demoCore : ModOrigin :=
  ⟨"fluids.core", true, 0,
    [("Reynolds", .defFunc "def Reynolds(V, D, rho, mu): return V*D*rho/mu")],
    ["Reynolds"], none⟩

/-- The demo catalogue. -/
def demoCat : List ModOrigin := [demoFriction, demoCore]

/-- An initial store holding one canonical module dictionary (reference 0),
standing for the already-imported original library. -/
def stCanon : Store := ⟨[[("origAttr", Obj.otherO 1)]]⟩

/-- Decidable equality for pipeline results. -/
instance exceptDecEq {e b : Type} [DecidableEq e] [DecidableEq b] :
    DecidableEq (Except e b) := fun x y =>
  match x, y with
  | .ok a, .ok c =>
    if h : a = c then isTrue (by rw [h])
    else isFalse (by intro hh; injection hh with h2; exact h h2)
  | .ok a, .error d => isFalse (by intro hh; exact Except.noConfusion hh)
  | .error a, .ok c => isFalse (by intro hh; exact Except.noConfusion hh)
  | .error a, .error d =>
    if h : a = d then isTrue (by rw [h])
    else isFalse (by intro hh; injection hh with h2; exact h h2)

/-- Extract the payload of a successful run (used only to name concrete
pipeline outputs in the witness statements). -/
def exceptD {e b : Type} (dflt : b) : Except e b → b
| .ok x => x
| .error _ => dflt

/-- The concrete run of the whole import pipeline on the demo catalogue. -/
def demoImport : Store × Nat × Dict × Dict :=
  exceptD (⟨[]⟩, 0, [], [])
    (numbaImport stCanon [] demoNumerics ("fluids") demoCat)

/-- The concrete run of `create_numerics` alone, starting from the store
holding the canonical module (reference 0) and the fluids.numba globals
(reference 1). -/
def demoCN : Dict × Store × Nat :=
  exceptD ([], ⟨[]⟩, 0)
    (create_numerics ⟨stCanon.mem ++ [[]]⟩ 1 demoNumerics
      [("sum", Obj.otherO 0)])

/-- The reference of the dictionary serving as `py_func.__globals__` of a
(compiled) function object; 0 for non-function objects. -/
def Obj.pyGlobals : Obj → Nat
| .funcO _ g => g
| .jitO _ g => g
| .vecO _ g => g
| _ => 0

/-- The concrete run of `transform_module` alone on the demo catalogue,
starting from the canonical store. -/
def demoTM : TState :=
  exceptD ⟨⟨[]⟩, [], [], []⟩
    (transform_module ("fluids") demoCat stCanon [] [("sum", Obj.otherO 0)]
      false)

/-- The concrete run of the submodule loop over the friction module alone,
with the ledger produced by the demo `create_numerics` run. -/
def demoGoPre : TState :=
  exceptD ⟨⟨[]⟩, [], [], []⟩
    (transformGo ("fluids") demoCN.1 false [demoFriction]
      ⟨demoCN.2.1, [], [], []⟩)

/-- A submodule whose isolated top-level execution raises exception token
7. -/
def demoBadA : ModOrigin := ⟨"fluids.atmosphere", false, 7, [], ["f"], none⟩

/-- A differently named submodule whose isolated top-level execution raises
the same exception token 7. -/
def demoBadB : ModOrigin :=
  ⟨"fluids.compressible", false, 7, [], ["g"], none⟩

/-- A one-attribute module dictionary holding the mixed-content flat literal
`[1, \x27x\x27]`, whose first element is numeric but whose second is a string. -/
def demoMixedDict : Dict :=
  [("w", Obj.listO [Elem.esc (Scalar.sint 1), Elem.esc (Scalar.sstr ("x"))])]

/-- A one-attribute module dictionary holding the rectangular numeric literal
`[[1,2],[3,4]]`. -/
def demoRectDict : Dict :=
  [("arr2", Obj.listO [Elem.erow [Cell.csc (Scalar.sint 1),
      Cell.csc (Scalar.sint 2)],
    Elem.erow [Cell.csc (Scalar.sint 3), Cell.csc (Scalar.sint 4)]]),
   ("tag", Obj.otherO 7)]

/-- A one-attribute module dictionary holding the ragged numeric literal
`[[1,2],[3]]`. -/
def demoRaggedDict : Dict :=
  [("tbl", Obj.listO [Elem.erow [Cell.csc (Scalar.sint 1),
      Cell.csc (Scalar.sint 2)],
    Elem.erow [Cell.csc (Scalar.sint 3)]])]

/-! Predicates used by the invariants of the pipeline proofs. -/

/-- A property holding of every value of a dictionary. -/
def dvalsP (P : Obj → Prop) (d : Dict) : Prop := ∀ p ∈ d, P p.2

/-- Whether an object is a module object. -/
def Obj.isModO : Obj → Bool
| .modO _ => true
| _ => false

/-- The value is not a plain Python function. -/
def notFuncP (o : Obj) : Prop := o.isPlainFunc = false

/-- The value is not a module object. -/
def notModP (o : Obj) : Prop := o.isModO = false

/-- Every plain-function value closes over dictionary `r`: true of a snapshot
dictionary freshly produced by executing a module whose function attributes
come from its own top-level `def` statements. -/
def homeAt (r : Nat) (o : Obj) : Prop :=
  ∀ src g, o = Obj.funcO src g → g = r

/-- A binding description whose value part is not a plain function (a `def`
is always allowed). -/
def BDesc.valOkFunc : BDesc → Bool
| .defFunc _ => true
| .valB o => !o.isPlainFunc

/-- A binding description whose value part is not a module object. -/
def BDesc.valOkMod : BDesc → Bool
| .defFunc _ => true
| .valB o => !o.isModO

/-- Function attributes of every catalogue submodule are that submodule's own
top-level `def`s, never imported function objects (the layout of the fluids
submodules, whose exported callables are defined where they are exported). -/
def localFuncs (cat : List ModOrigin) : Prop :=
  ∀ m ∈ cat, ∀ p ∈ m.binds, p.2.valOkFunc = true

/-- No catalogue submodule binds a module object among its attributes. -/
def noModBinds (cat : List ModOrigin) : Prop :=
  ∀ m ∈ cat, ∀ p ∈ m.binds, p.2.valOkMod = true

instance notFuncPDecidable (o : Obj) : Decidable (notFuncP o) := by
  unfold notFuncP
  infer_instance

instance notModPDecidable (o : Obj) : Decidable (notModP o) := by
  unfold notModP
  infer_instance

instance dvalsPDecidable (P : Obj → Prop) [DecidablePred P] (d : Dict) :
    Decidable (dvalsP P d) := by
  unfold dvalsP
  infer_instance

instance localFuncsDecidable (cat : List ModOrigin) :
    Decidable (localFuncs cat) := by
  unfold localFuncs
  infer_instance

instance noModBindsDecidable (cat : List ModOrigin) :
    Decidable (noModBinds cat) := by
  unfold noModBinds
  infer_instance

/-- The invariant maintained across the submodule loop of
`transform_module`, relative to the store `base` as it was when the loop
started and to the frozen `replaced` ledger. -/
structure TInv (base : Store) (rep : Dict) (ts : TState) : Prop where
  wf : storeWF ts.st
  len : base.mem.length ≤ ts.st.mem.length
  old : ∀ r, r < base.mem.length → sread ts.st r = sread base r
  fresh : ∀ r ∈ ts.newMods, base.mem.length ≤ r ∧ r < ts.st.mem.length
  nodupMods : ts.newMods.Nodup
  objsJit : ∀ t ∈ ts.newObjs, ∃ src g, t = Obj.jitO src g ∧ g ∈ ts.newMods
  funcsNd : (dkeys ts.funcs).Nodup
  funcsMod : ∀ n r, dget ts.funcs n = some (Obj.modO r) → r ∈ ts.newMods
  repSurv : ∀ r ∈ ts.newMods, ∀ n v, dget rep n = some v →
    dget (sread ts.st r) n = some v ∨ dget ts.funcs n ≠ none

/-! Basic dictionary lemmas. -/

@[simp] theorem dkeys_nil : dkeys ([] : Dict) = [] := rfl

@[simp] theorem dkeys_cons (p : String × Obj) (rest : Dict) :
    dkeys (p :: rest) = p.1 :: dkeys rest := rfl

theorem dget_dset_same (d : Dict) (k : String) (v : Obj) :
    dget (dset d k v) k = some v := by
  induction d with
  | nil => simp [dset, dget]
  | cons p rest ih =>
    by_cases h : p.1 = k
    · simp [dset, h, dget]
    · simp [dset, h, dget, ih]

theorem dget_dset_ne (d : Dict) (k k' : String) (v : Obj) (h : k' ≠ k) :
    dget (dset d k v) k' = dget d k' := by
  induction d with
  | nil =>
    have hk : ¬ (k = k') := fun hh => h hh.symm
    simp [dset, dget, hk]
  | cons p rest ih =>
    by_cases hp : p.1 = k
    · have hk : ¬ (k = k') := fun hh => h hh.symm
      have hpk : ¬ (p.1 = k') := by rw [hp]; exact hk
      simp [dset, hp, dget, hk, hpk]
    · simp [dset, hp, dget, ih]

theorem dkeys_dset_mem (d : Dict) (k : String) (v : Obj) (h : k ∈ dkeys d) :
    dkeys (dset d k v) = dkeys d := by
  induction d with
  | nil => simp at h
  | cons p rest ih =>
    by_cases hp : p.1 = k
    · simp [dset, hp]
    · have h' : k ∈ dkeys rest := by
        rcases List.mem_cons.mp (by simpa using h) with h1 | h1
        · exact absurd h1.symm hp
        · exact h1
      simp [dset, hp, ih h']

theorem dkeys_dset_new (d : Dict) (k : String) (v : Obj) (h : k ∉ dkeys d) :
    dkeys (dset d k v) = dkeys d ++ [k] := by
  induction d with
  | nil => simp [dset]
  | cons p rest ih =>
    have hp : p.1 ≠ k := fun hh => h (by simp [hh])
    have h' : k ∉ dkeys rest := fun hh => h (by simp [hh])
    simp [dset, hp, ih h']

theorem nodup_dset (d : Dict) (k : String) (v : Obj) (h : (dkeys d).Nodup) :
    (dkeys (dset d k v)).Nodup := by
  by_cases hk : k ∈ dkeys d
  · rw [dkeys_dset_mem d k v hk]; exact h
  · rw [dkeys_dset_new d k v hk]
    refine List.Nodup.append h (List.nodup_singleton k) ?_
    intro a ha hb
    rw [List.mem_singleton] at hb
    exact hk (hb ▸ ha)

theorem dget_none_iff (d : Dict) (k : String) :
    dget d k = none ↔ k ∉ dkeys d := by
  induction d with
  | nil => simp [dget]
  | cons p rest ih =>
    by_cases hp : p.1 = k
    · simp [dget, hp]
    · have hk : ¬ (k = p.1) := fun hh => hp hh.symm
      simp [dget, hp, ih, hk]

theorem dget_isSome_iff (d : Dict) (k : String) :
    dget d k ≠ none ↔ k ∈ dkeys d := by
  constructor
  · intro h
    by_contra hk
    exact h ((dget_none_iff d k).mpr hk)
  · intro h hnone
    exact (dget_none_iff d k).mp hnone h

theorem nodup_dupd (d e : Dict) (h : (dkeys d).Nodup) :
    (dkeys (dupd d e)).Nodup := by
  induction e generalizing d with
  | nil => exact h
  | cons p rest ih =>
    exact ih (dset d p.1 p.2) (nodup_dset d p.1 p.2 h)

theorem nodup_dof (l : List (String × Obj)) : (dkeys (dof l)).Nodup := by
  unfold dof
  exact nodup_dupd [] l (by simp)

@[simp] theorem dupd_nil (d : Dict) : dupd d [] = d := rfl

theorem dupd_cons (d : Dict) (p : String × Obj) (rest : Dict) :
    dupd d (p :: rest) = dupd (dset d p.1 p.2) rest := rfl

theorem dget_dupd_of_none (d e : Dict) (k : String) (h : dget e k = none) :
    dget (dupd d e) k = dget d k := by
  induction e generalizing d with
  | nil => rfl
  | cons p rest ih =>
    have hp : ¬ (p.1 = k) := by
      intro hh
      rw [dget, hh, if_pos rfl] at h
      exact Option.noConfusion h
    have hrest : dget rest k = none := by
      rw [dget, if_neg hp] at h
      exact h
    rw [dupd_cons, ih (dset d p.1 p.2) hrest,
        dget_dset_ne d p.1 k p.2 (fun hh => hp hh.symm)]

theorem dget_dupd_of_some (d e : Dict) (k : String) (v : Obj)
    (hnd : (dkeys e).Nodup) (h : dget e k = some v) :
    dget (dupd d e) k = some v := by
  induction e generalizing d with
  | nil => exact Option.noConfusion h
  | cons p rest ih =>
    have hnd' : (dkeys rest).Nodup := (List.nodup_cons.mp (by simpa using hnd)).2
    by_cases hp : p.1 = k
    · have hv : p.2 = v := by
        rw [dget, if_pos hp] at h
        exact Option.some.inj h
    -- the remaining bindings cannot mention k again
      have hmem : p.1 ∉ dkeys rest := (List.nodup_cons.mp (by simpa using hnd)).1
      have hrest : dget rest k = none := by
        rw [dget_none_iff]
        rw [hp] at hmem
        exact hmem
      rw [dupd_cons, dget_dupd_of_none (dset d p.1 p.2) rest k hrest, hp, hv,
          dget_dset_same]
    · have hrest : dget rest k = some v := by
        rw [dget, if_neg hp] at h
        exact h
      rw [dupd_cons]
      exact ih (dset d p.1 p.2) hnd' hrest

theorem dget_dupd_ne_none_left (d e : Dict) (k : String)
    (h : dget d k ≠ none) : dget (dupd d e) k ≠ none := by
  induction e generalizing d with
  | nil => exact h
  | cons p rest ih =>
    rw [dupd_cons]
    refine ih (dset d p.1 p.2) ?_
    by_cases hp : p.1 = k
    · rw [hp, dget_dset_same]
      exact Option.noConfusion
    · rw [dget_dset_ne d p.1 k p.2 (fun hh => hp hh.symm)]
      exact h

theorem dget_dupd_ne_none_right (d e : Dict) (k : String)
    (h : k ∈ dkeys e) : dget (dupd d e) k ≠ none := by
  induction e generalizing d with
  | nil => simp at h
  | cons p rest ih =>
    rw [dupd_cons]
    by_cases hk : k ∈ dkeys rest
    · exact ih (dset d p.1 p.2) hk
    · have hp : p.1 = k := by
        rcases List.mem_cons.mp (by simpa using h) with h1 | h1
        · exact h1.symm
        · exact absurd h1 hk
      refine dget_dupd_ne_none_left (dset d p.1 p.2) rest k ?_
      rw [hp, dget_dset_same]
      exact Option.noConfusion

/-! Further dictionary lemmas: membership, case analysis and value
properties. -/

theorem dget_mem (d : Dict) (k : String) (v : Obj) (h : dget d k = some v) :
    (k, v) ∈ d := by
  induction d with
  | nil => exact Option.noConfusion h
  | cons p rest ih =>
    by_cases hp : p.1 = k
    · rw [dget, if_pos hp] at h
      exact List.mem_cons.mpr (Or.inl (Prod.ext hp (Option.some.inj h)).symm)
    · rw [dget, if_neg hp] at h
      exact List.mem_cons.mpr (Or.inr (ih h))

theorem dget_dset_cases (d : Dict) (k : String) (v : Obj) (n : String)
    (w : Obj) (h : dget (dset d k v) n = some w) :
    (n = k ∧ w = v) ∨ dget d n = some w := by
  by_cases hn : n = k
  · subst hn
    rw [dget_dset_same] at h
    exact Or.inl ⟨rfl, (Option.some.inj h).symm⟩
  · rw [dget_dset_ne d k n v hn] at h
    exact Or.inr h

theorem dget_dupd_cases (d e : Dict) (n : String) (w : Obj)
    (h : dget (dupd d e) n = some w) :
    dget d n = some w ∨ w ∈ e.map Prod.snd := by
  induction e generalizing d with
  | nil => exact Or.inl h
  | cons p rest ih =>
    rw [dupd_cons] at h
    rcases ih (dset d p.1 p.2) h with h1 | h1
    · rcases dget_dset_cases d p.1 p.2 n w h1 with ⟨_, hw⟩ | h2
      · rw [List.map_cons]
        exact Or.inr (List.mem_cons.mpr (Or.inl hw))
      · exact Or.inl h2
    · rw [List.map_cons]
      exact Or.inr (List.mem_cons.mpr (Or.inr h1))

theorem dvalsP_dset (P : Obj → Prop) (d : Dict) (k : String) (v : Obj)
    (hd : dvalsP P d) (hv : P v) : dvalsP P (dset d k v) := by
  induction d with
  | nil =>
    intro p hp
    rw [dset] at hp
    rcases List.mem_singleton.mp hp with h
    rw [h]
    exact hv
  | cons q rest ih =>
    intro p hp
    by_cases hq : q.1 = k
    · rw [dset, if_pos hq] at hp
      rcases List.mem_cons.mp hp with h | h
      · rw [h]; exact hv
      · exact hd p (List.mem_cons.mpr (Or.inr h))
    · rw [dset, if_neg hq] at hp
      rcases List.mem_cons.mp hp with h | h
      · exact hd p (by rw [h]; exact List.mem_cons_self q rest)
      · exact ih (fun x hx => hd x (List.mem_cons.mpr (Or.inr hx))) p h

theorem dvalsP_dupd (P : Obj → Prop) (d e : Dict) (hd : dvalsP P d)
    (he : ∀ p ∈ e, P p.2) : dvalsP P (dupd d e) := by
  induction e generalizing d with
  | nil => exact hd
  | cons p rest ih =>
    rw [dupd_cons]
    exact ih (dset d p.1 p.2)
      (dvalsP_dset P d p.1 p.2 hd (he p (List.mem_cons_self p rest)))
      (fun x hx => he x (List.mem_cons.mpr (Or.inr hx)))

theorem dvalsP_dof (P : Obj → Prop) (l : List (String × Obj))
    (hl : ∀ p ∈ l, P p.2) : dvalsP P (dof l) := by
  unfold dof
  exact dvalsP_dupd P [] l (fun p hp => absurd hp (List.not_mem_nil p)) hl

theorem dvalsP_dget (P : Obj → Prop) (d : Dict) (hd : dvalsP P d)
    (k : String) (v : Obj) (h : dget d k = some v) : P v :=
  hd (k, v) (dget_mem d k v h)

/-! Store lemmas. -/

theorem swrite_length (st : Store) (r : Nat) (d : Dict) :
    (swrite st r d).mem.length = st.mem.length := by
  unfold swrite
  exact List.length_set st.mem r d

theorem sread_swrite_same (st : Store) (r : Nat) (d : Dict)
    (h : r < st.mem.length) : sread (swrite st r d) r = d := by
  unfold sread swrite
  simp [List.getD, List.getElem?_set_self, h]

theorem sread_swrite_ne (st : Store) (r r2 : Nat) (d : Dict) (h : r2 ≠ r) :
    sread (swrite st r d) r2 = sread st r2 := by
  unfold sread swrite
  simp [List.getD, List.getElem?_set_ne (fun hh => h hh.symm)]

theorem storeWF_sread (st : Store) (r : Nat) (h : storeWF st) :
    (dkeys (sread st r)).Nodup := by
  unfold sread
  rcases hx : st.mem[r]? with _ | d
  · simp [List.getD, hx]
  · have hd : d ∈ st.mem := List.getElem?_mem hx
    simp [List.getD, hx]
    exact h d hd

theorem storeWF_swrite (st : Store) (r : Nat) (d : Dict) (hst : storeWF st)
    (hd : (dkeys d).Nodup) : storeWF (swrite st r d) := by
  intro x hx
  rcases List.mem_or_eq_of_mem_set hx with h | h
  · exact hst x h
  · rw [h]; exact hd

theorem sread_appendStore_lt (mem : List Dict) (d : Dict) (r : Nat)
    (h : r < mem.length) :
    sread ⟨mem ++ [d]⟩ r = sread ⟨mem⟩ r := by
  unfold sread
  simp [List.getD, List.getElem?_append_left h]

theorem sread_appendStore_self (mem : List Dict) (d : Dict) :
    sread ⟨mem ++ [d]⟩ mem.length = d := by
  unfold sread
  simp [List.getD]

theorem storeWF_appendStore (mem : List Dict) (d : Dict)
    (hst : storeWF (⟨mem⟩ : Store)) (hd : (dkeys d).Nodup) :
    storeWF (⟨mem ++ [d]⟩ : Store) := by
  intro x hx
  rcases List.mem_append.mp hx with h | h
  · exact hst x h
  · rw [List.mem_singleton.mp h]
    exact hd

/-! Lemmas about the array materializer. -/

theorem eligibleArr_some (o a : Obj) (h : eligibleArr o = some a) :
    ∃ xs, o = Obj.listO xs ∧ a = Obj.arrO xs := by
  cases o with
  | listO xs =>
    cases xs with
    | nil => simp [eligibleArr] at h
    | cons e rest =>
      refine ⟨e :: rest, rfl, ?_⟩
      simp only [eligibleArr] at h
      split at h
      · exact (Option.some.inj h).symm
      · split at h
        · exact (Option.some.inj h).symm
        · exact Option.noConfusion h
  | scalarO s => simp [eligibleArr] at h
  | arrO xs => simp [eligibleArr] at h
  | funcO src g => simp [eligibleArr] at h
  | jitO src g => simp [eligibleArr] at h
  | vecO src g => simp [eligibleArr] at h
  | modO r => simp [eligibleArr] at h
  | otherO t => simp [eligibleArr] at h

theorem toDoOf_go_nodup (d : Dict) : ∀ acc : Dict, (dkeys acc).Nodup →
    (dkeys (d.foldl tdStep acc)).Nodup := by
  induction d with
  | nil => intro acc h; exact h
  | cons p rest ih =>
    intro acc h
    rw [List.foldl_cons]
    refine ih (tdStep acc p) ?_
    unfold tdStep
    cases eligibleArr p.2 with
    | none => exact h
    | some a => exact nodup_dset acc p.1 a h

theorem nodup_toDoOf (d : Dict) : (dkeys (toDoOf d)).Nodup :=
  toDoOf_go_nodup d [] (by simp)

theorem toDoOf_go_vals (P : Obj → Prop) (harr : ∀ xs, P (Obj.arrO xs))
    (d : Dict) : ∀ acc : Dict, dvalsP P acc →
    dvalsP P (d.foldl tdStep acc) := by
  induction d with
  | nil => intro acc h; exact h
  | cons p rest ih =>
    intro acc h
    rw [List.foldl_cons]
    refine ih (tdStep acc p) ?_
    unfold tdStep
    cases hx : eligibleArr p.2 with
    | none => exact h
    | some a =>
      rcases eligibleArr_some p.2 a hx with ⟨xs, _, ha⟩
      exact dvalsP_dset P acc p.1 a h (by rw [ha]; exact harr xs)

theorem toDoOf_vals (P : Obj → Prop) (harr : ∀ xs, P (Obj.arrO xs))
    (d : Dict) : dvalsP P (toDoOf d) :=
  toDoOf_go_vals P harr d [] (fun p hp => absurd hp (List.not_mem_nil p))

theorem dget_toDoOf_go (k : String) : ∀ (d acc : Dict), (dkeys d).Nodup →
    dget (d.foldl tdStep acc) k =
      (match dget d k with
       | some o =>
         (match eligibleArr o with
          | some a => some a
          | none => dget acc k)
       | none => dget acc k) := by
  intro d
  induction d with
  | nil => intro acc _; simp [dget]
  | cons p rest ih =>
    intro acc hnd
    have hout : p.1 ∉ dkeys rest := (List.nodup_cons.mp (by simpa using hnd)).1
    have hnd' : (dkeys rest).Nodup := (List.nodup_cons.mp (by simpa using hnd)).2
    rw [List.foldl_cons, ih (tdStep acc p) hnd']
    by_cases hk : p.1 = k
    · subst hk
      have hrest : dget rest p.1 = none := (dget_none_iff rest p.1).mpr hout
      rw [hrest]
      rw [show dget (p :: rest) p.1 = some p.2 from by rw [dget, if_pos rfl]]
      unfold tdStep
      cases hx : eligibleArr p.2 with
      | some a => simp [dget_dset_same, hx]
      | none => simp [hx]
    · rw [show dget (p :: rest) k = dget rest k from by rw [dget, if_neg hk]]
      have hstep : dget (tdStep acc p) k = dget acc k := by
        unfold tdStep
        cases eligibleArr p.2 with
        | some a => exact dget_dset_ne acc p.1 k a (fun hh => hk hh.symm)
        | none => rfl
      rw [hstep]

theorem dget_toDoOf (d : Dict) (hnd : (dkeys d).Nodup) (k : String) :
    dget (toDoOf d) k = (dget d k).bind eligibleArr := by
  unfold toDoOf
  rw [dget_toDoOf_go k d [] hnd]
  cases dget d k with
  | none => rfl
  | some o =>
    cases hx : eligibleArr o with
    | none => simp [hx, dget]
    | some a => simp [hx]

/-! Helper lemmas about the value predicates. -/

theorem dget_dset_ne_none (d : Dict) (k k2 : String) (v : Obj)
    (h : dget d k2 ≠ none) : dget (dset d k v) k2 ≠ none := by
  by_cases hk : k2 = k
  · subst hk
    rw [dget_dset_same]
    exact Option.noConfusion
  · rw [dget_dset_ne d k k2 v hk]
    exact h

theorem homeAt_of_notFunc (r : Nat) (o : Obj) (h : notFuncP o) : homeAt r o := by
  intro src g hh
  rw [hh] at h
  simp [notFuncP, Obj.isPlainFunc] at h

theorem notModP_ne (o : Obj) (h : notModP o) (r2 : Nat) : o ≠ Obj.modO r2 := by
  intro hh
  rw [hh] at h
  simp [notModP, Obj.isModO] at h

theorem homeAt_jit (r : Nat) (src : String) (g : Nat) :
    homeAt r (Obj.jitO src g) := by
  intro s2 g2 hh
  exact Obj.noConfusion hh

theorem notModP_jit (src : String) (g : Nat) : notModP (Obj.jitO src g) := rfl

theorem notModP_arr (xs : List Elem) : notModP (Obj.arrO xs) := rfl

theorem realize_homeAt (r : Nat) (b : BDesc) (h : b.valOkFunc = true) :
    homeAt r (realize r b) := by
  cases b with
  | defFunc src =>
    intro s2 g2 hh
    exact (Obj.funcO.inj hh).2.symm
  | valB o =>
    refine homeAt_of_notFunc r o ?_
    simpa [BDesc.valOkFunc, notFuncP] using h

theorem realize_notModP (r : Nat) (b : BDesc) (h : b.valOkMod = true) :
    notModP (realize r b) := by
  cases b with
  | defFunc src => rfl
  | valB o => simpa [BDesc.valOkMod, notModP] using h

/-! The main properties of the compile loop of `transform_module`. -/

theorem compileLoopT_props (mn : String) (r : Nat) (rep : Dict) :
    ∀ (names : List String) (st : Store) (funcs : Dict) (st' : Store)
      (funcs' : Dict) (objs : List Obj),
    compileLoopT st r mn funcs false names = .ok (st', funcs', objs) →
    r < st.mem.length → storeWF st → (dkeys funcs).Nodup →
    dvalsP (homeAt r) (sread st r) → dvalsP notModP (sread st r) →
    (st'.mem.length = st.mem.length ∧
     (∀ r2, r2 ≠ r → sread st' r2 = sread st r2) ∧
     storeWF st' ∧
     (dkeys funcs').Nodup ∧
     dvalsP (homeAt r) (sread st' r) ∧
     dvalsP notModP (sread st' r) ∧
     (∀ t ∈ objs, ∃ src, t = Obj.jitO src r) ∧
     (∀ n, dget funcs n ≠ none → dget funcs' n ≠ none) ∧
     (∀ n, n ∈ names → dget funcs' n ≠ none) ∧
     (∀ n r2, dget funcs' n = some (Obj.modO r2) →
        dget funcs n = some (Obj.modO r2)) ∧
     (∀ n v, dget rep n = some v →
        (dget (sread st r) n = some v ∨ dget funcs n ≠ none) →
        (dget (sread st' r) n = some v ∨ dget funcs' n ≠ none))) := by
  intro names
  induction names with
  | nil =>
    intro st funcs st' funcs' objs h hr hwf hnd hhome hnomod
    rw [compileLoopT] at h
    injection h with h1
    injection h1 with ha hb
    injection hb with hb1 hb2
    subst ha
    subst hb1
    subst hb2
    refine ⟨rfl, fun r2 _ => rfl, hwf, hnd, hhome, hnomod, ?_, ?_, ?_, ?_, ?_⟩
    · intro t ht
      exact absurd ht (List.not_mem_nil t)
    · exact fun n hn => hn
    · intro n hn
      exact absurd hn (List.not_mem_nil n)
    · exact fun n r2 hh => hh
    · exact fun n v _ hd => hd
  | cons n rest ih =>
    intro st funcs st' funcs' objs h hr hwf hnd hhome hnomod
    simp only [compileLoopT, Bool.false_eq_true, if_false] at h
    split at h
    · exact absurd h (by simp)
    · rename_i src g heq
      have hg : g = r := dvalsP_dget (homeAt r) (sread st r) hhome n
        (Obj.funcO src g) heq src g rfl
      split at h
      · exact absurd h (by simp)
      · rename_i st2 f2 objs2 heq2
        injection h with h1
        injection h1 with ha hb
        injection hb with hb1 hb2
        subst ha
        subst hb1
        subst hb2
        have hr1 : r < (swrite st r (dset (sread st r) n
            (Obj.jitO src g))).mem.length := by
          rw [swrite_length]
          exact hr
        have hread1 : sread (swrite st r (dset (sread st r) n
            (Obj.jitO src g))) r = dset (sread st r) n (Obj.jitO src g) :=
          sread_swrite_same st r _ hr
        have hwf1 : storeWF (swrite st r (dset (sread st r) n
            (Obj.jitO src g))) :=
          storeWF_swrite st r _ hwf
            (nodup_dset (sread st r) n _ (storeWF_sread st r hwf))
        have hnd1 : (dkeys (dset funcs n (Obj.jitO src g))).Nodup :=
          nodup_dset funcs n _ hnd
        have hhome1 : dvalsP (homeAt r) (sread (swrite st r (dset (sread st r)
            n (Obj.jitO src g))) r) := by
          rw [hread1]
          exact dvalsP_dset (homeAt r) (sread st r) n _ hhome
            (homeAt_jit r src g)
        have hnomod1 : dvalsP notModP (sread (swrite st r (dset (sread st r)
            n (Obj.jitO src g))) r) := by
          rw [hread1]
          exact dvalsP_dset notModP (sread st r) n _ hnomod
            (notModP_jit src g)
        obtain ⟨c1, c2, c3, c4, c5, c6, c7, c8, c9, c10, c11⟩ :=
          ih _ _ _ _ _ heq2 hr1 hwf1 hnd1 hhome1 hnomod1
        refine ⟨?_, ?_, c3, c4, c5, c6, ?_, ?_, ?_, ?_, ?_⟩
        · rw [c1, swrite_length]
        · intro r2 hr2
          rw [c2 r2 hr2, sread_swrite_ne st r r2 _ hr2]
        · intro t ht
          rcases List.mem_cons.mp ht with h1 | h1
          · exact ⟨src, by rw [h1, hg]⟩
          · exact c7 t h1
        · intro n2 hn2
          exact c8 n2 (dget_dset_ne_none funcs n n2 _ hn2)
        · intro n2 hn2
          rcases List.mem_cons.mp hn2 with h1 | h1
          · subst h1
            refine c8 n2 ?_
            rw [dget_dset_same]
            exact Option.noConfusion
          · exact c9 n2 h1
        · intro n2 r2 hh
          rcases dget_dset_cases funcs n (Obj.jitO src g) n2 (Obj.modO r2)
            (c10 n2 r2 hh) with ⟨_, hw⟩ | h2
          · exact Obj.noConfusion hw
          · exact h2
        · intro n2 v hrep hd
          refine c11 n2 v hrep ?_
          by_cases hn2 : n2 = n
          · subst hn2
            right
            rw [dget_dset_same]
            exact Option.noConfusion
          · rcases hd with h1 | h1
            · left
              rw [hread1, dget_dset_ne (sread st r) n n2 _ hn2]
              exact h1
            · right
              exact dget_dset_ne_none funcs n n2 _ h1
    · rename_i o hnfo heq
      have hnotmod : notModP o :=
        dvalsP_dget notModP (sread st r) hnomod n o heq
      have hnd1 : (dkeys (dset funcs n o)).Nodup := nodup_dset funcs n o hnd
      obtain ⟨c1, c2, c3, c4, c5, c6, c7, c8, c9, c10, c11⟩ :=
        ih st (dset funcs n o) st' funcs' objs h hr hwf hnd1 hhome hnomod
      refine ⟨c1, c2, c3, c4, c5, c6, c7, ?_, ?_, ?_, ?_⟩
      · intro n2 hn2
        exact c8 n2 (dget_dset_ne_none funcs n n2 o hn2)
      · intro n2 hn2
        rcases List.mem_cons.mp hn2 with h1 | h1
        · subst h1
          refine c8 n2 ?_
          rw [dget_dset_same]
          exact Option.noConfusion
        · exact c9 n2 h1
      · intro n2 r2 hh
        rcases dget_dset_cases funcs n o n2 (Obj.modO r2)
          (c10 n2 r2 hh) with ⟨_, hw⟩ | h2
        · exact absurd hw.symm (notModP_ne o hnotmod r2)
        · exact h2
      · intro n2 v hrep hd
        refine c11 n2 v hrep ?_
        rcases hd with h1 | h1
        · exact Or.inl h1
        · exact Or.inr (dget_dset_ne_none funcs n n2 o h1)

/-! Properties of the per-module rebinding of compiled functions' lookup
scopes (lines 171-175). -/

theorem bcStep_props (r : Nat) (td rep : Dict) (hrepNd : (dkeys rep).Nodup)
    (st : Store) (src : String) (hr : r < st.mem.length) (hwf : storeWF st) :
    ((bcStep r td rep st (Obj.jitO src r)).mem.length = st.mem.length ∧
     (∀ r2, r2 ≠ r →
        sread (bcStep r td rep st (Obj.jitO src r)) r2 = sread st r2) ∧
     storeWF (bcStep r td rep st (Obj.jitO src r)) ∧
     (∀ n v, dget rep n = some v →
        dget (sread (bcStep r td rep st (Obj.jitO src r)) r) n = some v)) := by
  unfold bcStep
  simp only []
  set stA := swrite st r (dupd (sread st r) (sread st r)) with hA
  set stB := swrite stA r (dupd (sread stA r) td) with hB
  have hlA : stA.mem.length = st.mem.length := by
    rw [hA]; exact swrite_length st r _
  have hwfA : storeWF stA := by
    rw [hA]
    exact storeWF_swrite st r _ hwf (nodup_dupd _ _ (storeWF_sread st r hwf))
  have hlB : stB.mem.length = st.mem.length := by
    rw [hB, swrite_length, hlA]
  have hwfB : storeWF stB := by
    rw [hB]
    exact storeWF_swrite stA r _ hwfA
      (nodup_dupd _ _ (storeWF_sread stA r hwfA))
  have hrB : r < stB.mem.length := by rw [hlB]; exact hr
  refine ⟨?_, ?_, ?_, ?_⟩
  · rw [swrite_length, hlB]
  · intro r2 hr2
    rw [sread_swrite_ne stB r r2 _ hr2, hB,
      sread_swrite_ne stA r r2 _ hr2, hA, sread_swrite_ne st r r2 _ hr2]
  · exact storeWF_swrite stB r _ hwfB
      (nodup_dupd _ _ (storeWF_sread stB r hwfB))
  · intro n v hrep
    rw [sread_swrite_same stB r _ hrB]
    exact dget_dupd_of_some _ rep n v hrepNd hrep

theorem broadcastObjs_props (r : Nat) (td rep : Dict)
    (hrepNd : (dkeys rep).Nodup) :
    ∀ (objs : List Obj) (st : Store),
    (∀ t ∈ objs, ∃ src, t = Obj.jitO src r) →
    r < st.mem.length → storeWF st →
    ((broadcastObjs st r td rep objs).mem.length = st.mem.length ∧
     (∀ r2, r2 ≠ r →
        sread (broadcastObjs st r td rep objs) r2 = sread st r2) ∧
     storeWF (broadcastObjs st r td rep objs) ∧
     (∀ n v, dget rep n = some v →
        dget (sread st r) n = some v →
        dget (sread (broadcastObjs st r td rep objs) r) n = some v)) := by
  intro objs
  induction objs with
  | nil =>
    intro st _ _ hwf
    exact ⟨rfl, fun r2 _ => rfl, hwf, fun n v _ hd => hd⟩
  | cons t rest ih =>
    intro st hobj hr hwf
    obtain ⟨src, rfl⟩ := hobj t (List.mem_cons_self t rest)
    obtain ⟨s1, s2, s3, s4⟩ := bcStep_props r td rep hrepNd st src hr hwf
    have hstep : broadcastObjs st r td rep (Obj.jitO src r :: rest) =
        broadcastObjs (bcStep r td rep st (Obj.jitO src r)) r td rep rest := by
      unfold broadcastObjs
      rw [List.foldl_cons]
    obtain ⟨c1, c2, c3, c4⟩ := ih (bcStep r td rep st (Obj.jitO src r))
      (fun t2 ht2 => hobj t2 (List.mem_cons.mpr (Or.inr ht2)))
      (by rw [s1]; exact hr) s3
    refine ⟨?_, ?_, ?_, ?_⟩
    · rw [hstep, c1, s1]
    · intro r2 hr2
      rw [hstep, c2 r2 hr2, s2 r2 hr2]
    · rw [hstep]; exact c3
    · intro n v hrep _
      rw [hstep]
      exact c4 n v hrep (s4 n v hrep)

/-! Inversion of snapshot execution and the per-module invariant
preservation. -/

theorem execModule_ok (st : Store) (m : ModOrigin) (st1 : Store) (r : Nat)
    (h : execModule st m = .ok (st1, r)) :
    m.runOk = true ∧ r = st.mem.length ∧
    st1 = ⟨st.mem ++ [dof (m.binds.map (fun p =>
      (p.1, realize st.mem.length p.2)))]⟩ := by
  unfold execModule at h
  split at h
  · rename_i hok
    injection h with h1
    injection h1 with ha hb
    exact ⟨hok, hb.symm, ha.symm⟩
  · exact absurd h (by simp)

theorem execModule_err (st : Store) (m : ModOrigin) (h : m.runOk = false) :
    execModule st m = .error (.execErr m.errTok) := by
  unfold execModule
  rw [if_neg]
  rw [h]
  exact Bool.noConfusion

theorem processMod_inv (pkg : String) (base : Store) (rep : Dict)
    (hrepNd : (dkeys rep).Nodup)
    (hrepNoFunc : dvalsP notFuncP rep)
    (hrepNoMod : dvalsP notModP rep)
    (m : ModOrigin)
    (hmFunc : ∀ p ∈ m.binds, p.2.valOkFunc = true)
    (hmMod : ∀ p ∈ m.binds, p.2.valOkMod = true)
    (ts ts' : TState)
    (hinv : TInv base rep ts)
    (h : processMod pkg rep false ts m = .ok ts') :
    TInv base rep ts' ∧
    ts'.st.mem.length = ts.st.mem.length + 1 ∧
    (∀ n, dget ts.funcs n ≠ none → dget ts'.funcs n ≠ none) ∧
    (∀ n, n ∈ namesOf m → dget ts'.funcs n ≠ none) := by
  unfold processMod at h
  split at h
  · exact absurd h (by simp)
  rename_i st1 r heq1
  obtain ⟨hok, hrR, hst1⟩ := execModule_ok ts.st m st1 r heq1
  split at h
  · exact absurd h (by simp)
  rename_i short heqShort
  simp only [Bool.false_eq_true, if_false] at h
  split at h
  · exact absurd h (by simp)
  rename_i st3 funcs2 objs heq3
  injection h with h1
  subst h1
  subst hrR
  -- facts about the fresh snapshot
  have hlen1 : st1.mem.length = ts.st.mem.length + 1 := by
    rw [hst1]
    simp
  have hread1self : sread st1 ts.st.mem.length =
      dof (m.binds.map (fun p => (p.1, realize ts.st.mem.length p.2))) := by
    rw [hst1]
    exact sread_appendStore_self ts.st.mem _
  have hread1old : ∀ r2, r2 < ts.st.mem.length →
      sread st1 r2 = sread ts.st r2 := by
    intro r2 hr2
    rw [hst1]
    exact sread_appendStore_lt ts.st.mem _ r2 hr2
  have hwf1 : storeWF st1 := by
    rw [hst1]
    exact storeWF_appendStore ts.st.mem _ hinv.wf (nodup_dof _)
  have hd0home : dvalsP (homeAt ts.st.mem.length)
      (sread st1 ts.st.mem.length) := by
    rw [hread1self]
    refine dvalsP_dof _ _ ?_
    intro q hq
    obtain ⟨p, hp, rfl⟩ := List.mem_map.mp hq
    exact realize_homeAt ts.st.mem.length p.2 (hmFunc p hp)
  have hd0nomod : dvalsP notModP (sread st1 ts.st.mem.length) := by
    rw [hread1self]
    refine dvalsP_dof _ _ ?_
    intro q hq
    obtain ⟨p, hp, rfl⟩ := List.mem_map.mp hq
    exact realize_notModP ts.st.mem.length p.2 (hmMod p hp)
  have hrlt1 : ts.st.mem.length < st1.mem.length := by
    rw [hlen1]
    exact Nat.lt_succ_self _
  -- facts about the replaced-seeded snapshot dictionary (line 136)
  have hlen2 : (swrite st1 ts.st.mem.length (dupd (sread st1
      ts.st.mem.length) rep)).mem.length = ts.st.mem.length + 1 := by
    rw [swrite_length, hlen1]
  have hread2self : sread (swrite st1 ts.st.mem.length (dupd (sread st1
      ts.st.mem.length) rep)) ts.st.mem.length =
      dupd (sread st1 ts.st.mem.length) rep :=
    sread_swrite_same st1 _ _ hrlt1
  have hwf2 : storeWF (swrite st1 ts.st.mem.length (dupd (sread st1
      ts.st.mem.length) rep)) :=
    storeWF_swrite st1 _ _ hwf1
      (nodup_dupd _ rep (storeWF_sread st1 _ hwf1))
  have hrlt2 : ts.st.mem.length < (swrite st1 ts.st.mem.length (dupd
      (sread st1 ts.st.mem.length) rep)).mem.length := by
    rw [hlen2]
    exact Nat.lt_succ_self _
  have hfuncs1nd : (dkeys (dset ts.funcs short
      (Obj.modO ts.st.mem.length))).Nodup :=
    nodup_dset ts.funcs short _ hinv.funcsNd
  have hhome2 : dvalsP (homeAt ts.st.mem.length) (sread (swrite st1
      ts.st.mem.length (dupd (sread st1 ts.st.mem.length) rep))
      ts.st.mem.length) := by
    rw [hread2self]
    exact dvalsP_dupd _ _ rep hd0home
      (fun p hp => homeAt_of_notFunc _ p.2 (hrepNoFunc p hp))
  have hnomod2 : dvalsP notModP (sread (swrite st1 ts.st.mem.length (dupd
      (sread st1 ts.st.mem.length) rep)) ts.st.mem.length) := by
    rw [hread2self]
    exact dvalsP_dupd _ _ rep hd0nomod hrepNoMod
  obtain ⟨c1, c2, c3, c4, c5, c6, c7, c8, c9, c10, c11⟩ :=
    compileLoopT_props m.modName ts.st.mem.length rep (namesOf m) _ _ st3
      funcs2 objs heq3 hrlt2 hwf2 hfuncs1nd hhome2 hnomod2
  have hlen3 : st3.mem.length = ts.st.mem.length + 1 := by
    rw [c1, hlen2]
  have hrlt3 : ts.st.mem.length < st3.mem.length := by
    rw [hlen3]
    exact Nat.lt_succ_self _
  -- facts about the materialization step (lines 159-169)
  have htdnd : (dkeys (toDoOf (sread st3 ts.st.mem.length))).Nodup :=
    nodup_toDoOf _
  have hlen4 : (swrite st3 ts.st.mem.length (dupd (sread st3
      ts.st.mem.length) (toDoOf (sread st3 ts.st.mem.length)))).mem.length =
      ts.st.mem.length + 1 := by
    rw [swrite_length, hlen3]
  have hwf4 : storeWF (swrite st3 ts.st.mem.length (dupd (sread st3
      ts.st.mem.length) (toDoOf (sread st3 ts.st.mem.length)))) :=
    storeWF_swrite st3 _ _ c3 (nodup_dupd _ _ (storeWF_sread st3 _ c3))
  have hrlt4 : ts.st.mem.length < (swrite st3 ts.st.mem.length (dupd
      (sread st3 ts.st.mem.length) (toDoOf (sread st3
      ts.st.mem.length)))).mem.length := by
    rw [hlen4]
    exact Nat.lt_succ_self _
  have hfuncs3nd : (dkeys (dupd funcs2 (toDoOf (sread st3
      ts.st.mem.length)))).Nodup :=
    nodup_dupd funcs2 _ c4
  obtain ⟨b1, b2, b3, b4⟩ := broadcastObjs_props ts.st.mem.length
    (toDoOf (sread st3 ts.st.mem.length)) rep hrepNd objs _ c7 hrlt4 hwf4
  -- the final store of this iteration
  have hlenF : (broadcastObjs (swrite st3 ts.st.mem.length (dupd (sread st3
      ts.st.mem.length) (toDoOf (sread st3 ts.st.mem.length))))
      ts.st.mem.length (toDoOf (sread st3 ts.st.mem.length)) rep
      objs).mem.length = ts.st.mem.length + 1 := by
    rw [b1, hlen4]
  have hreadFne : ∀ r2, r2 ≠ ts.st.mem.length → r2 < ts.st.mem.length →
      sread (broadcastObjs (swrite st3 ts.st.mem.length (dupd (sread st3
        ts.st.mem.length) (toDoOf (sread st3 ts.st.mem.length))))
        ts.st.mem.length (toDoOf (sread st3 ts.st.mem.length)) rep objs) r2 =
      sread ts.st r2 := by
    intro r2 hne hlt
    rw [b2 r2 hne, sread_swrite_ne st3 _ r2 _ hne, c2 r2 hne,
      sread_swrite_ne st1 _ r2 _ hne, hread1old r2 hlt]
  have hmodsNe : ∀ x ∈ ts.newMods, x ≠ ts.st.mem.length := by
    intro x hx
    exact Nat.ne_of_lt (hinv.fresh x hx).2
  constructor
  · refine ⟨b3, ?_, ?_, ?_, ?_, ?_, hfuncs3nd, ?_, ?_⟩
    · rw [hlenF]
      exact Nat.le_trans hinv.len (Nat.le_succ _)
    · intro r2 hr2
      exact (hreadFne r2 (Nat.ne_of_lt (Nat.lt_of_lt_of_le hr2 hinv.len))
        (Nat.lt_of_lt_of_le hr2 hinv.len)).trans (hinv.old r2 hr2)
    · intro r2 hr2
      rcases List.mem_append.mp hr2 with h2 | h2
      · refine ⟨(hinv.fresh r2 h2).1, ?_⟩
        rw [hlenF]
        exact Nat.lt_succ_of_lt (hinv.fresh r2 h2).2
      · rw [List.mem_singleton.mp h2, hlenF]
        exact ⟨hinv.len, Nat.lt_succ_self _⟩
    · refine List.Nodup.append hinv.nodupMods (List.nodup_singleton _) ?_
      intro x hx hx2
      rw [List.mem_singleton.mp hx2] at hx
      exact absurd rfl (hmodsNe _ hx)
    · intro t ht
      rcases List.mem_append.mp ht with h2 | h2
      · obtain ⟨src, g, hjit, hg⟩ := hinv.objsJit t h2
        exact ⟨src, g, hjit, List.mem_append.mpr (Or.inl hg)⟩
      · obtain ⟨src, hjit⟩ := c7 t h2
        exact ⟨src, ts.st.mem.length, hjit,
          List.mem_append.mpr (Or.inr (List.mem_singleton.mpr rfl))⟩
    · intro n r2 hget
      rcases dget_dupd_cases funcs2 _ n _ hget with h2 | h2
      · rcases dget_dset_cases ts.funcs short (Obj.modO ts.st.mem.length) n
          (Obj.modO r2) (c10 n r2 h2) with ⟨_, hw⟩ | h3
        · rw [(Obj.modO.inj hw)]
          exact List.mem_append.mpr (Or.inr (List.mem_singleton.mpr rfl))
        · exact List.mem_append.mpr (Or.inl (hinv.funcsMod n r2 h3))
      · obtain ⟨q, hq, hq2⟩ := List.mem_map.mp h2
        have := toDoOf_vals notModP (fun xs => notModP_arr xs)
          (sread st3 ts.st.mem.length) q hq
        rw [hq2] at this
        exact absurd rfl (notModP_ne _ this r2)
    · intro r2 hr2 n v hrep
      rcases List.mem_append.mp hr2 with h2 | h2
      · rcases hinv.repSurv r2 h2 n v hrep with h3 | h3
        · left
          rw [hreadFne r2 (hmodsNe r2 h2) (hinv.fresh r2 h2).2]
          exact h3
        · right
          refine dget_dupd_ne_none_left _ _ n (c8 n ?_)
          exact dget_dset_ne_none ts.funcs short n _ h3
      · rw [List.mem_singleton.mp h2]
        have hseed : dget (sread (swrite st1 ts.st.mem.length (dupd (sread
            st1 ts.st.mem.length) rep)) ts.st.mem.length) n = some v := by
          rw [hread2self]
          exact dget_dupd_of_some _ rep n v hrepNd hrep
        rcases c11 n v hrep (Or.inl hseed) with h3 | h3
        · by_cases htd : n ∈ dkeys (toDoOf (sread st3 ts.st.mem.length))
          · right
            exact dget_dupd_ne_none_right funcs2 _ n htd
          · left
            refine b4 n v hrep ?_
            rw [sread_swrite_same st3 _ _ hrlt3,
              dget_dupd_of_none _ _ n ((dget_none_iff _ n).mpr htd)]
            exact h3
        · right
          exact dget_dupd_ne_none_left funcs2 _ n h3
  refine ⟨hlenF, ?_, ?_⟩
  · intro n hn
    exact dget_dupd_ne_none_left funcs2 _ n
      (c8 n (dget_dset_ne_none ts.funcs short n _ hn))
  · intro n hn
    exact dget_dupd_ne_none_left funcs2 _ n (c9 n hn)

theorem transformGo_inv (pkg : String) (base : Store) (rep : Dict)
    (hrepNd : (dkeys rep).Nodup)
    (hrepNoFunc : dvalsP notFuncP rep)
    (hrepNoMod : dvalsP notModP rep) :
    ∀ (cat : List ModOrigin) (ts ts' : TState),
    localFuncs cat → noModBinds cat →
    transformGo pkg rep false cat ts = .ok ts' →
    TInv base rep ts →
    (TInv base rep ts' ∧
     (∀ n, dget ts.funcs n ≠ none → dget ts'.funcs n ≠ none) ∧
     (∀ m2 ∈ cat, ∀ n ∈ namesOf m2, dget ts'.funcs n ≠ none)) := by
  intro cat
  induction cat with
  | nil =>
    intro ts ts' _ _ h hinv
    rw [transformGo] at h
    injection h with h1
    subst h1
    exact ⟨hinv, fun n hn => hn,
      fun m2 hm2 => absurd hm2 (List.not_mem_nil m2)⟩
  | cons m rest ih =>
    intro ts ts' hlf hnm h hinv
    rw [transformGo] at h
    split at h
    · exact absurd h (by simp)
    rename_i ts1 heq
    obtain ⟨hinv1, _, hmono1, hnames1⟩ := processMod_inv pkg base rep hrepNd
      hrepNoFunc hrepNoMod m
      (fun p hp => hlf m (List.mem_cons_self m rest) p hp)
      (fun p hp => hnm m (List.mem_cons_self m rest) p hp)
      ts ts1 hinv heq
    obtain ⟨hinv2, hmono2, hnames2⟩ := ih ts1 ts'
      (fun m2 hm2 p hp => hlf m2 (List.mem_cons.mpr (Or.inr hm2)) p hp)
      (fun m2 hm2 p hp => hnm m2 (List.mem_cons.mpr (Or.inr hm2)) p hp)
      h hinv1
    refine ⟨hinv2, fun n hn => hmono2 n (hmono1 n hn), ?_⟩
    intro m2 hm2 n hn
    rcases List.mem_cons.mp hm2 with h2 | h2
    · subst h2
      exact hmono2 n (hnames1 n hn)
    · exact hnames2 m2 h2 n hn

/-! The final ledger broadcast (lines 178-179). -/

theorem fbFold_read_notin (funcs : Dict) :
    ∀ (mods : List Nat) (st : Store) (r : Nat), r ∉ mods →
    sread (mods.foldl (fbStep funcs) st) r = sread st r := by
  intro mods
  induction mods with
  | nil => intro st r _; rfl
  | cons r0 rest ih =>
    intro st r hr
    rw [List.foldl_cons]
    have hr0 : r ≠ r0 := by
      intro hh
      rw [hh] at hr
      exact hr (List.mem_cons_self r0 rest)
    rw [ih _ r (fun hh => hr (List.mem_cons.mpr (Or.inr hh)))]
    unfold fbStep
    exact sread_swrite_ne st r0 r _ hr0

theorem fbFold_length (funcs : Dict) :
    ∀ (mods : List Nat) (st : Store),
    (mods.foldl (fbStep funcs) st).mem.length = st.mem.length := by
  intro mods
  induction mods with
  | nil => intro st; rfl
  | cons r0 rest ih =>
    intro st
    rw [List.foldl_cons, ih]
    unfold fbStep
    exact swrite_length st r0 _

theorem fbFold_wf (funcs : Dict) (_hfnd : (dkeys funcs).Nodup) :
    ∀ (mods : List Nat) (st : Store), storeWF st →
    storeWF (mods.foldl (fbStep funcs) st) := by
  intro mods
  induction mods with
  | nil => intro st h; exact h
  | cons r0 rest ih =>
    intro st hwf
    rw [List.foldl_cons]
    refine ih _ ?_
    unfold fbStep
    exact storeWF_swrite st r0 _ hwf
      (nodup_dupd _ funcs (storeWF_sread st r0 hwf))

theorem fbFold_read_mem (funcs : Dict) :
    ∀ (mods : List Nat) (st : Store), mods.Nodup →
    (∀ r ∈ mods, r < st.mem.length) →
    ∀ r ∈ mods, sread (mods.foldl (fbStep funcs) st) r =
      dupd (sread st r) funcs := by
  intro mods
  induction mods with
  | nil => intro st _ _ r hr; exact absurd hr (List.not_mem_nil r)
  | cons r0 rest ih =>
    intro st hnd hlt r hr
    rw [List.foldl_cons]
    have hnotin : r0 ∉ rest := (List.nodup_cons.mp hnd).1
    rcases List.mem_cons.mp hr with h2 | h2
    · subst h2
      rw [fbFold_read_notin funcs rest _ r hnotin]
      unfold fbStep
      exact sread_swrite_same st r _ (hlt r (List.mem_cons_self r rest))
    · have hlen : ∀ x ∈ rest, x < (fbStep funcs st r0).mem.length := by
        intro x hx
        unfold fbStep
        rw [swrite_length]
        exact hlt x (List.mem_cons.mpr (Or.inr hx))
      rw [ih (fbStep funcs st r0) (List.nodup_cons.mp hnd).2 hlen r h2]
      have hrr0 : r ≠ r0 := fun hh => hnotin (hh ▸ h2)
      unfold fbStep
      rw [sread_swrite_ne st r0 r _ hrr0]

/-- The collected guarantees of a successful `transform_module` run with
`vec=False` over a catalogue whose function attributes are home-defined. -/
theorem transform_module_main (pkg : String) (cat : List ModOrigin)
    (st0 : Store) (funcs0 rep : Dict) (ts' : TState)
    (h : transform_module pkg cat st0 funcs0 rep false = .ok ts')
    (hwf0 : storeWF st0) (hf0nd : (dkeys funcs0).Nodup)
    (hf0noMod : dvalsP notModP funcs0)
    (hrepNd : (dkeys rep).Nodup)
    (hrepNoFunc : dvalsP notFuncP rep)
    (hrepNoMod : dvalsP notModP rep)
    (hlf : localFuncs cat) (hnm : noModBinds cat) :
    (storeWF ts'.st ∧
     st0.mem.length ≤ ts'.st.mem.length ∧
     (∀ r, r < st0.mem.length → sread ts'.st r = sread st0 r) ∧
     ts'.newMods.Nodup ∧
     (∀ r ∈ ts'.newMods, st0.mem.length ≤ r ∧ r < ts'.st.mem.length) ∧
     (∀ t ∈ ts'.newObjs, ∃ src g, t = Obj.jitO src g ∧ g ∈ ts'.newMods) ∧
     (∀ n r, dget ts'.funcs n = some (Obj.modO r) → r ∈ ts'.newMods) ∧
     (dkeys ts'.funcs).Nodup ∧
     (∀ g ∈ ts'.newMods, ∀ n v, dget (dupd rep ts'.funcs) n = some v →
        dget (sread ts'.st g) n = some v) ∧
     (∀ m ∈ cat, ∀ n ∈ namesOf m, dget ts'.funcs n ≠ none)) := by
  unfold transform_module at h
  split at h
  · exact absurd h (by simp)
  rename_i tsG heq
  injection h with h1
  subst h1
  have hinv0 : TInv st0 rep ⟨st0, funcs0, [], []⟩ := by
    refine ⟨hwf0, Nat.le_refl _, fun r _ => rfl, ?_, List.nodup_nil, ?_,
      hf0nd, ?_, ?_⟩
    · intro r hr
      exact absurd hr (List.not_mem_nil r)
    · intro t ht
      exact absurd ht (List.not_mem_nil t)
    · intro n r hget
      exact absurd rfl
        (notModP_ne _ (dvalsP_dget notModP funcs0 hf0noMod n _ hget) r)
    · intro r hr
      exact absurd hr (List.not_mem_nil r)
  obtain ⟨hinvG, _, hnamesG⟩ := transformGo_inv pkg st0 rep hrepNd
    hrepNoFunc hrepNoMod cat ⟨st0, funcs0, [], []⟩ tsG hlf hnm heq hinv0
  have hltmods : ∀ r ∈ tsG.newMods, r < tsG.st.mem.length :=
    fun r hr => (hinvG.fresh r hr).2
  have hlenF : (finalBroadcast tsG).st.mem.length = tsG.st.mem.length :=
    fbFold_length tsG.funcs tsG.newMods tsG.st
  refine ⟨?_, ?_, ?_, hinvG.nodupMods, ?_, hinvG.objsJit, hinvG.funcsMod,
    hinvG.funcsNd, ?_, hnamesG⟩
  · exact fbFold_wf tsG.funcs hinvG.funcsNd tsG.newMods tsG.st hinvG.wf
  · rw [hlenF]
    exact hinvG.len
  · intro r hr
    have hnotin : r ∉ tsG.newMods := by
      intro hmem
      exact absurd hr (Nat.not_lt.mpr (hinvG.fresh r hmem).1)
    show sread (tsG.newMods.foldl (fbStep tsG.funcs) tsG.st) r = sread st0 r
    rw [fbFold_read_notin tsG.funcs tsG.newMods tsG.st r hnotin]
    exact hinvG.old r hr
  · intro r hr
    refine ⟨(hinvG.fresh r hr).1, ?_⟩
    rw [hlenF]
    exact (hinvG.fresh r hr).2
  · intro g hg n v hget
    have hgG : g ∈ tsG.newMods := hg
    have hgetG : dget (dupd rep tsG.funcs) n = some v := hget
    show dget (sread (tsG.newMods.foldl (fbStep tsG.funcs) tsG.st) g) n =
      some v
    rw [fbFold_read_mem tsG.funcs tsG.newMods tsG.st hinvG.nodupMods
      hltmods g hgG]
    cases hc : dget tsG.funcs n with
    | some w =>
      have hvw : v = w := by
        have h3 := dget_dupd_of_some rep tsG.funcs n w hinvG.funcsNd hc
        rw [h3] at hgetG
        exact Option.some.inj hgetG.symm
      rw [hvw]
      exact dget_dupd_of_some _ tsG.funcs n w hinvG.funcsNd hc
    | none =>
      have hrep : dget rep n = some v := by
        rw [dget_dupd_of_none rep tsG.funcs n hc] at hgetG
        exact hgetG
      rcases hinvG.repSurv g hgG n v hrep with h2 | h2
      · rw [dget_dupd_of_none _ tsG.funcs n hc]
        exact h2
      · exact absurd hc h2

/-! Lemmas about `create_numerics`. -/

theorem sread_lt_of_dget (st : Store) (r : Nat) (n : String) (o : Obj)
    (h : dget (sread st r) n = some o) : r < st.mem.length := by
  by_contra hge
  have hempty : sread st r = [] := by
    unfold sread
    exact List.getD_eq_default st.mem [] (Nat.le_of_not_lt hge)
  rw [hempty] at h
  exact Option.noConfusion h

theorem create_numerics_ok_decomp (st : Store) (gG : Nat)
    (numerics : ModOrigin) (rep0 rep : Dict) (stF : Store) (nr : Nat)
    (h : create_numerics st gG numerics rep0 = .ok (rep, stF, nr)) :
    ∃ st1 st2 st3 st4 rep1 st5 rep2 st6 rep3,
      execModule st numerics = .ok (st1, nr) ∧
      rewriteSolver st1 gG nr numerics.modName ("secant") = .ok st2 ∧
      rewriteSolver st2 gG nr numerics.modName ("brenth") = .ok st3 ∧
      compileNames st3 nr numerics.modName rep0 (namesOf numerics) =
        .ok (st4, rep1) ∧
      pyOverride1 st4 nr rep1 ("bisplev") ("py_bisplev") = .ok (st5, rep2) ∧
      pyOverride1 st5 nr rep2 ("splev") ("py_splev") = .ok (st6, rep3) ∧
      pyOverride1 st6 nr rep3 ("lambertw") ("py_lambertw") = .ok (stF, rep) := by
  unfold create_numerics at h
  split at h
  · exact absurd h (by simp)
  rename_i st1 nr1 heq1
  split at h
  · exact absurd h (by simp)
  rename_i st2 heq2
  split at h
  · exact absurd h (by simp)
  rename_i st3 heq3
  split at h
  · exact absurd h (by simp)
  rename_i st4 rep1 heq4
  split at h
  · exact absurd h (by simp)
  rename_i st5 rep2 heq5
  split at h
  · exact absurd h (by simp)
  rename_i st6 rep3 heq6
  split at h
  · exact absurd h (by simp)
  rename_i st7 rep4 heq7
  injection h with h1
  injection h1 with ha hb
  injection hb with hb1 hb2
  subst ha
  subst hb1
  subst hb2
  exact ⟨st1, st2, st3, st4, rep1, st5, rep2, st6, rep3, heq1, heq2, heq3,
    heq4, heq5, heq6, heq7⟩

theorem rewriteSolver_ok (st : Store) (gG nr : Nat) (mn s : String)
    (st2 : Store) (h : rewriteSolver st gG nr mn s = .ok st2) :
    ∃ src gOld, dget (sread st nr) s = some (.funcO src gOld) ∧
      st2 = swrite (swrite st gG (dset (sread st gG) s
        (.funcO (patchSolver src) gG))) nr
        (dset (sread (swrite st gG (dset (sread st gG) s
          (.funcO (patchSolver src) gG))) nr)
          s (.funcO (patchSolver src) gG)) := by
  unfold rewriteSolver at h
  split at h
  · exact absurd h (by simp)
  · rename_i src gOld heq
    injection h with h1
    exact ⟨src, gOld, heq, h1.symm⟩
  · exact absurd h (by simp)

theorem rewriteSolver_facts (st : Store) (gG nr : Nat) (mn s : String)
    (st2 : Store) (h : rewriteSolver st gG nr mn s = .ok st2)
    (hne : nr ≠ gG) (hwf : storeWF st) :
    (st2.mem.length = st.mem.length ∧ storeWF st2 ∧
     (∃ src gOld, dget (sread st nr) s = some (.funcO src gOld) ∧
       dget (sread st2 nr) s = some (.funcO (patchSolver src) gG)) ∧
     (∀ n, n ≠ s → dget (sread st2 nr) n = dget (sread st nr) n) ∧
     (∀ r2, r2 ≠ nr → r2 ≠ gG → sread st2 r2 = sread st r2)) := by
  obtain ⟨src, gOld, heq, hst2⟩ := rewriteSolver_ok st gG nr mn s st2 h
  have hnrlt : nr < st.mem.length := sread_lt_of_dget st nr s _ heq
  have hnrlt1 : nr < (swrite st gG (dset (sread st gG) s
      (.funcO (patchSolver src) gG))).mem.length := by
    rw [swrite_length]
    exact hnrlt
  have hwf1 : storeWF (swrite st gG (dset (sread st gG) s
      (.funcO (patchSolver src) gG))) :=
    storeWF_swrite st gG _ hwf (nodup_dset _ s _ (storeWF_sread st gG hwf))
  have hread1 : sread (swrite st gG (dset (sread st gG) s
      (.funcO (patchSolver src) gG))) nr = sread st nr :=
    sread_swrite_ne st gG nr _ hne
  refine ⟨?_, ?_, ⟨src, gOld, heq, ?_⟩, ?_, ?_⟩
  · rw [hst2, swrite_length, swrite_length]
  · rw [hst2]
    exact storeWF_swrite _ nr _ hwf1
      (nodup_dset _ s _ (storeWF_sread _ nr hwf1))
  · rw [hst2, sread_swrite_same _ nr _ hnrlt1, hread1]
    exact dget_dset_same _ s _
  · intro n hn
    rw [hst2, sread_swrite_same _ nr _ hnrlt1, hread1,
      dget_dset_ne _ s n _ hn]
  · intro r2 h2nr h2g
    rw [hst2, sread_swrite_ne _ nr r2 _ h2nr, sread_swrite_ne _ gG r2 _ h2g]

theorem compileNames_facts (nr : Nat) (mn : String) :
    ∀ (names : List String) (st : Store) (rep : Dict) (st' : Store)
      (rep' : Dict),
    compileNames st nr mn rep names = .ok (st', rep') →
    storeWF st → (dkeys rep).Nodup → dvalsP notFuncP rep →
    dvalsP notModP rep →
    (st'.mem.length = st.mem.length ∧ storeWF st' ∧
     (dkeys rep').Nodup ∧ dvalsP notFuncP rep' ∧ dvalsP notModP rep' ∧
     (∀ r2, r2 ≠ nr → sread st' r2 = sread st r2)) := by
  intro names
  induction names with
  | nil =>
    intro st rep st' rep' h hwf hnd hnf hnm
    rw [compileNames] at h
    injection h with h1
    injection h1 with ha hb
    subst ha
    subst hb
    exact ⟨rfl, hwf, hnd, hnf, hnm, fun r2 _ => rfl⟩
  | cons n rest ih =>
    intro st rep st' rep' h hwf hnd hnf hnm
    rw [compileNames] at h
    split at h
    · exact absurd h (by simp)
    · rename_i src g heq
      have hnrlt : nr < st.mem.length := sread_lt_of_dget st nr n _ heq
      obtain ⟨c1, c2, c3, c4, c5, c6⟩ := ih _ _ st' rep' h
        (storeWF_swrite st nr _ hwf
          (nodup_dset _ n _ (storeWF_sread st nr hwf)))
        (nodup_dset rep n _ hnd)
        (dvalsP_dset notFuncP rep n _ hnf rfl)
        (dvalsP_dset notModP rep n _ hnm rfl)
      refine ⟨by rw [c1, swrite_length], c2, c3, c4, c5, ?_⟩
      intro r2 hr2
      rw [c6 r2 hr2, sread_swrite_ne st nr r2 _ hr2]
    · rename_i o hnfo heq
      exact ih st rep st' rep' h hwf hnd hnf hnm

theorem pyOverride1_ok (st : Store) (nr : Nat) (rep : Dict)
    (dst srcK : String) (st' : Store) (rep' : Dict)
    (h : pyOverride1 st nr rep dst srcK = .ok (st', rep')) :
    ∃ v, dget rep srcK = some v ∧
      st' = swrite st nr (dset (sread st nr) dst v) ∧
      rep' = dset rep dst v := by
  unfold pyOverride1 at h
  split at h
  · exact absurd h (by simp)
  · rename_i v heq
    injection h with h1
    injection h1 with ha hb
    exact ⟨v, heq, ha.symm, hb.symm⟩

theorem pyOverride1_facts (st : Store) (nr : Nat) (rep : Dict)
    (dst srcK : String) (st' : Store) (rep' : Dict)
    (h : pyOverride1 st nr rep dst srcK = .ok (st', rep'))
    (hwf : storeWF st) (hnd : (dkeys rep).Nodup)
    (hnf : dvalsP notFuncP rep) (hnm : dvalsP notModP rep) :
    (st'.mem.length = st.mem.length ∧ storeWF st' ∧
     (dkeys rep').Nodup ∧ dvalsP notFuncP rep' ∧ dvalsP notModP rep' ∧
     (∀ r2, r2 ≠ nr → sread st' r2 = sread st r2)) := by
  obtain ⟨v, heq, hst, hrep⟩ := pyOverride1_ok st nr rep dst srcK st' rep' h
  subst hst
  subst hrep
  exact ⟨swrite_length st nr _,
    storeWF_swrite st nr _ hwf
      (nodup_dset _ dst _ (storeWF_sread st nr hwf)),
    nodup_dset rep dst v hnd,
    dvalsP_dset notFuncP rep dst v hnf
      (dvalsP_dget notFuncP rep hnf srcK v heq),
    dvalsP_dset notModP rep dst v hnm
      (dvalsP_dget notModP rep hnm srcK v heq),
    fun r2 hr2 => sread_swrite_ne st nr r2 _ hr2⟩

theorem create_numerics_main (st : Store) (gG : Nat) (numerics : ModOrigin)
    (rep0 rep : Dict) (stF : Store) (nr : Nat)
    (h : create_numerics st gG numerics rep0 = .ok (rep, stF, nr))
    (hwf : storeWF st) (hgG : gG < st.mem.length)
    (hrep0Nd : (dkeys rep0).Nodup)
    (hrep0NoFunc : dvalsP notFuncP rep0)
    (hrep0NoMod : dvalsP notModP rep0) :
    (storeWF stF ∧ st.mem.length ≤ stF.mem.length ∧ nr = st.mem.length ∧
     (dkeys rep).Nodup ∧ dvalsP notFuncP rep ∧ dvalsP notModP rep) := by
  obtain ⟨st1, st2, st3, st4, rep1, st5, rep2, st6, rep3, h1, h2, h3, h4,
    h5, h6, h7⟩ := create_numerics_ok_decomp st gG numerics rep0 rep stF nr h
  obtain ⟨hok, hnr, hst1⟩ := execModule_ok st numerics st1 nr h1
  have hlen1 : st1.mem.length = st.mem.length + 1 := by
    rw [hst1]
    simp
  have hwf1 : storeWF st1 := by
    rw [hst1]
    exact storeWF_appendStore _ _ hwf (nodup_dof _)
  have hne : nr ≠ gG := by
    rw [hnr]
    exact Ne.symm (Nat.ne_of_lt hgG)
  obtain ⟨a1, a2, _, _, _⟩ := rewriteSolver_facts st1 gG nr _ _ st2 h2
    hne hwf1
  obtain ⟨b1, b2, _, _, _⟩ := rewriteSolver_facts st2 gG nr _ _ st3 h3
    hne a2
  obtain ⟨c1, c2, c3, c4, c5, _⟩ := compileNames_facts nr _ _ st3 rep0 st4
    rep1 h4 b2 hrep0Nd hrep0NoFunc hrep0NoMod
  obtain ⟨d1, d2, d3, d4, d5, _⟩ := pyOverride1_facts st4 nr rep1 _ _ st5
    rep2 h5 c2 c3 c4 c5
  obtain ⟨e1, e2, e3, e4, e5, _⟩ := pyOverride1_facts st5 nr rep2 _ _ st6
    rep3 h6 d2 d3 d4 d5
  obtain ⟨f1, f2, f3, f4, f5, _⟩ := pyOverride1_facts st6 nr rep3 _ _ stF
    rep h7 e2 e3 e4 e5
  refine ⟨f2, ?_, hnr, f3, f4, f5⟩
  rw [f1, e1, d1, c1, b1, a1, hlen1]
  exact Nat.le_succ _

theorem compileNames_stable (nr : Nat) (mn : String) :
    ∀ (names : List String) (st : Store) (rep : Dict) (st' : Store)
      (rep' : Dict) (n : String) (o : Obj) (w : Option Obj),
    compileNames st nr mn rep names = .ok (st', rep') →
    dget (sread st nr) n = some o → o.isPlainFunc = false →
    dget rep n = w →
    (dget (sread st' nr) n = some o ∧ dget rep' n = w) := by
  intro names
  induction names with
  | nil =>
    intro st rep st' rep' n o w h ho hnf hw
    rw [compileNames] at h
    injection h with h1
    injection h1 with ha hb
    subst ha
    subst hb
    exact ⟨ho, hw⟩
  | cons n1 rest ih =>
    intro st rep st' rep' n o w h hget hnf hw
    rw [compileNames] at h
    split at h
    · exact absurd h (by simp)
    · rename_i src g heq
      by_cases hn : n1 = n
      · subst hn
        rw [hget] at heq
        have ho : o = Obj.funcO src g := Option.some.inj heq
        rw [ho] at hnf
        exact absurd hnf (by simp [Obj.isPlainFunc])
      · have hget1 : dget (sread (swrite st nr (dset (sread st nr) n1
            (Obj.jitO src g))) nr) n = some o := by
          rw [sread_swrite_same st nr _ (sread_lt_of_dget st nr n1 _ heq),
            dget_dset_ne _ n1 n _ (fun hh => hn hh.symm)]
          exact hget
        have hw1 : dget (dset rep n1 (Obj.jitO src g)) n = w := by
          rw [dget_dset_ne rep n1 n _ (fun hh => hn hh.symm)]
          exact hw
        exact ih _ _ st' rep' n o w h hget1 hnf hw1
    · rename_i o1 hnfo heq
      exact ih st rep st' rep' n o w h hget hnf hw

theorem compileNames_entry (nr : Nat) (mn : String) :
    ∀ (names : List String) (st : Store) (rep : Dict) (st' : Store)
      (rep' : Dict) (n : String) (src : String) (g : Nat),
    compileNames st nr mn rep names = .ok (st', rep') →
    dget (sread st nr) n = some (.funcO src g) →
    n ∈ names →
    (dget (sread st' nr) n = some (.jitO src g) ∧
     dget rep' n = some (.jitO src g)) := by
  intro names
  induction names with
  | nil =>
    intro st rep st' rep' n src g h hget hmem
    exact absurd hmem (List.not_mem_nil n)
  | cons n1 rest ih =>
    intro st rep st' rep' n src g h hget hmem
    rw [compileNames] at h
    split at h
    · exact absurd h (by simp)
    · rename_i src1 g1 heq
      by_cases hn : n1 = n
      · subst hn
        rw [hget] at heq
        have hsg := Obj.funcO.inj (Option.some.inj heq)
        obtain ⟨hsrc, hg⟩ := hsg
        subst hsrc
        subst hg
        have hlt : nr < st.mem.length := sread_lt_of_dget st nr n1 _ hget
        have hget1 : dget (sread (swrite st nr (dset (sread st nr) n1
            (Obj.jitO src g))) nr) n1 = some (Obj.jitO src g) := by
          rw [sread_swrite_same st nr _ hlt]
          exact dget_dset_same _ n1 _
        have hw1 : dget (dset rep n1 (Obj.jitO src g)) n1 =
            some (Obj.jitO src g) := dget_dset_same rep n1 _
        exact compileNames_stable nr mn rest _ _ st' rep' n1
          (Obj.jitO src g) (some (Obj.jitO src g)) h hget1 rfl hw1
      · have hmem' : n ∈ rest := by
          rcases List.mem_cons.mp hmem with h2 | h2
          · exact absurd h2.symm hn
          · exact h2
        have hget1 : dget (sread (swrite st nr (dset (sread st nr) n1
            (Obj.jitO src1 g1))) nr) n = some (Obj.funcO src g) := by
          rw [sread_swrite_same st nr _ (sread_lt_of_dget st nr n1 _ heq),
            dget_dset_ne _ n1 n _ (fun hh => hn hh.symm)]
          exact hget
        exact ih _ _ st' rep' n src g h hget1 hmem'
    · rename_i o1 hnfo heq
      by_cases hn : n1 = n
      · subst hn
        rw [hget] at heq
        exact absurd (Option.some.inj heq).symm
          (by intro hh; exact hnfo src g hh)
      · have hmem' : n ∈ rest := by
          rcases List.mem_cons.mp hmem with h2 | h2
          · exact absurd h2.symm hn
          · exact h2
        exact ih st rep st' rep' n src g h hget hmem'

theorem dget_of_mem_nodup (d : Dict) (k : String) (v : Obj)
    (hnd : (dkeys d).Nodup) (hmem : (k, v) ∈ d) : dget d k = some v := by
  induction d with
  | nil => exact absurd hmem (List.not_mem_nil _)
  | cons p rest ih =>
    rcases List.mem_cons.mp hmem with h2 | h2
    · rw [← h2, dget, if_pos rfl]
    · have hkeys : k ∈ dkeys rest :=
        List.mem_map.mpr ⟨(k, v), h2, rfl⟩
      have hp : p.1 ≠ k := by
        intro hh
        exact (List.nodup_cons.mp (by simpa using hnd)).1 (hh ▸ hkeys)
      rw [dget, if_neg hp]
      exact ih (List.nodup_cons.mp (by simpa using hnd)).2 h2

theorem dget_dof_of_mem (l : List (String × Obj)) (k : String) (v : Obj)
    (hnd : (dkeys l).Nodup) (hmem : (k, v) ∈ l) :
    dget (dof l) k = some v := by
  unfold dof
  exact dget_dupd_of_some [] l k v hnd (dget_of_mem_nodup l k v hnd hmem)

theorem dkeys_realized (r : Nat) (l : List (String × BDesc)) :
    dkeys (l.map (fun p => (p.1, realize r p.2))) = l.map Prod.fst := by
  induction l with
  | nil => rfl
  | cons p rest ih =>
    simp only [List.map_cons, dkeys_cons]
    rw [show dkeys (List.map (fun p => (p.1, realize r p.2)) rest) =
      List.map Prod.fst rest from ih]

/-- Lookup into a freshly executed snapshot dictionary. -/
theorem dget_snapshot (r : Nat) (binds : List (String × BDesc)) (k : String)
    (b : BDesc) (hnd : (binds.map Prod.fst).Nodup) ( hmem : (k, b) ∈ binds) :
    dget (dof (binds.map (fun p => (p.1, realize r p.2)))) k =
      some (realize r b) := by
  refine dget_dof_of_mem _ k _ ?_ ?_
  · rw [dkeys_realized]
    exact hnd
  · exact List.mem_map.mpr ⟨(k, b), hmem, rfl⟩

/-- Claim C6: for each function on the rewrite allow-list (`secant` and
`brenth`), `create_numerics` obtains the function's source text from the
owning snapshot, applies the fixed sequence of literal string substitutions
in declaration order (`patchSolver`, built from `pyReplace`, Python's literal
`str.replace`), re-executes the patched text in a scope seeded with the
current global environment (the new function closes over the fluids.numba
globals dictionary `gG`), and installs the resulting callable — compiled by
the generic pass into a dispatcher whose `py_func` is exactly that rewritten
function — back into the owning snapshot's attribute table and into the
rebinding ledger `replaced` under the same name, shadowing the un-rewritten
version. -/
theorem claim_C6_source_rewriter
    (st : Store) (gG : Nat) (numerics : ModOrigin) (rep0 rep : Dict)
    (stF : Store) (nr : Nat) (srcS srcB : String)
    (h : create_numerics st gG numerics rep0 = .ok (rep, stF, nr))
    (hwf : storeWF st) (hgG : gG < st.mem.length)
    (hnd : (numerics.binds.map Prod.fst).Nodup)
    (hS : ("secant", BDesc.defFunc srcS) ∈ numerics.binds)
    (hB : ("brenth", BDesc.defFunc srcB) ∈ numerics.binds)
    (hSn : "secant" ∈ namesOf numerics)
    (hBn : "brenth" ∈ namesOf numerics) :
    (dget (sread stF nr) ("secant") =
       some (.jitO (patchSolver srcS) gG) ∧
     dget rep ("secant") = some (.jitO (patchSolver srcS) gG) ∧
     dget (sread stF nr) ("brenth") =
       some (.jitO (patchSolver srcB) gG) ∧
     dget rep ("brenth") = some (.jitO (patchSolver srcB) gG)) := by
  obtain ⟨st1, st2, st3, st4, rep1, st5, rep2, st6, rep3, h1, h2, h3, h4,
    h5, h6, h7⟩ := create_numerics_ok_decomp st gG numerics rep0 rep stF nr h
  obtain ⟨hok, hnr, hst1⟩ := execModule_ok st numerics st1 nr h1
  have hwf1 : storeWF st1 := by
    rw [hst1]
    exact storeWF_appendStore _ _ hwf (nodup_dof _)
  have hne : nr ≠ gG := by
    rw [hnr]
    exact Ne.symm (Nat.ne_of_lt hgG)
  have hgetS : dget (sread st1 nr) ("secant") =
      some (Obj.funcO srcS nr) := by
    rw [hst1, hnr, sread_appendStore_self]
    exact dget_snapshot st.mem.length numerics.binds _ _ hnd hS
  have hgetB1 : dget (sread st1 nr) ("brenth") =
      some (Obj.funcO srcB nr) := by
    rw [hst1, hnr, sread_appendStore_self]
    exact dget_snapshot st.mem.length numerics.binds _ _ hnd hB
  obtain ⟨a1, a2, ⟨srcS2, gOldS, heqS, hpatchS⟩, aOther, _⟩ :=
    rewriteSolver_facts st1 gG nr numerics.modName _ st2 h2 hne hwf1
  have hsrcS : srcS2 = srcS := by
    rw [hgetS] at heqS
    exact (Obj.funcO.inj (Option.some.inj heqS)).1.symm
  rw [hsrcS] at hpatchS
  obtain ⟨b1, b2, ⟨srcB2, gOldB, heqB, hpatchB⟩, bOther, _⟩ :=
    rewriteSolver_facts st2 gG nr numerics.modName _ st3 h3 hne a2
  have hsrcB : srcB2 = srcB := by
    rw [aOther ("brenth") (by decide), hgetB1] at heqB
    exact (Obj.funcO.inj (Option.some.inj heqB)).1.symm
  rw [hsrcB] at hpatchB
  have hpatchS3 : dget (sread st3 nr) ("secant") =
      some (Obj.funcO (patchSolver srcS) gG) := by
    rw [bOther ("secant") (by decide)]
    exact hpatchS
  obtain ⟨hS4, hSrep1⟩ := compileNames_entry nr numerics.modName
    (namesOf numerics) st3 rep0 st4 rep1 ("secant") (patchSolver srcS) gG
    h4 hpatchS3 hSn
  obtain ⟨hB4, hBrep1⟩ := compileNames_entry nr numerics.modName
    (namesOf numerics) st3 rep0 st4 rep1 ("brenth") (patchSolver srcB) gG
    h4 hpatchB hBn
  obtain ⟨v5, hv5, hst5, hrep2⟩ := pyOverride1_ok st4 nr rep1 _ _ st5 rep2 h5
  obtain ⟨v6, hv6, hst6, hrep3⟩ := pyOverride1_ok st5 nr rep2 _ _ st6 rep3 h6
  obtain ⟨v7, hv7, hstF, hrepF⟩ := pyOverride1_ok st6 nr rep3 _ _ stF rep h7
  have hnr4 : nr < st4.mem.length := sread_lt_of_dget st4 nr _ _ hS4
  have hnr5 : nr < st5.mem.length := by
    rw [hst5, swrite_length]
    exact hnr4
  have hnr6 : nr < st6.mem.length := by
    rw [hst6, swrite_length]
    exact hnr5
  have hdict5 : ∀ n v, n ≠ "bisplev" → dget (sread st4 nr) n = some v →
      dget (sread st5 nr) n = some v := by
    intro n v hnn hgn
    rw [hst5, sread_swrite_same st4 nr _ hnr4, dget_dset_ne _ _ n _ hnn]
    exact hgn
  have hdict6 : ∀ n v, n ≠ "splev" → dget (sread st5 nr) n = some v →
      dget (sread st6 nr) n = some v := by
    intro n v hnn hgn
    rw [hst6, sread_swrite_same st5 nr _ hnr5, dget_dset_ne _ _ n _ hnn]
    exact hgn
  have hdictF : ∀ n v, n ≠ "lambertw" → dget (sread st6 nr) n = some v →
      dget (sread stF nr) n = some v := by
    intro n v hnn hgn
    rw [hstF, sread_swrite_same st6 nr _ hnr6, dget_dset_ne _ _ n _ hnn]
    exact hgn
  have hrepKeep : ∀ n v, n ≠ "bisplev" → n ≠ "splev" → n ≠ "lambertw" →
      dget rep1 n = some v → dget rep n = some v := by
    intro n v hb hs hl hgn
    rw [hrepF, dget_dset_ne _ _ n _ hl, hrep3, dget_dset_ne _ _ n _ hs,
      hrep2, dget_dset_ne _ _ n _ hb]
    exact hgn
  refine ⟨?_, ?_, ?_, ?_⟩
  · exact hdictF _ _ (by decide) (hdict6 _ _ (by decide)
      (hdict5 _ _ (by decide) hS4))
  · exact hrepKeep _ _ (by decide) (by decide) (by decide) hSrep1
  · exact hdictF _ _ (by decide) (hdict6 _ _ (by decide)
      (hdict5 _ _ (by decide) hB4))
  · exact hrepKeep _ _ (by decide) (by decide) (by decide) hBrep1

theorem compileNames_length (nr : Nat) (mn : String) :
    ∀ (names : List String) (st : Store) (rep : Dict) (st' : Store)
      (rep' : Dict),
    compileNames st nr mn rep names = .ok (st', rep') →
    st'.mem.length = st.mem.length := by
  intro names
  induction names with
  | nil =>
    intro st rep st' rep' h
    rw [compileNames] at h
    injection h with h1
    injection h1 with ha hb
    subst ha
    rfl
  | cons n rest ih =>
    intro st rep st' rep' h
    rw [compileNames] at h
    split at h
    · exact absurd h (by simp)
    · rename_i src g heq
      rw [ih _ _ st' rep' h, swrite_length]
    · rename_i o hnfo heq
      exact ih st rep st' rep' h

/-- Claim C10: after the numerics submodule is transformed, the ledger
entries and snapshot attributes for `bisplev`, `splev` and `lambertw` are
unconditionally overwritten to be the same objects as the ledger entries for
`py_bisplev`, `py_splev` and `py_lambertw` respectively, replacing whatever
the generic compilation pass had bound to those names. -/
theorem claim_C10_py_overrides
    (st : Store) (gG : Nat) (numerics : ModOrigin) (rep0 rep : Dict)
    (stF : Store) (nr : Nat)
    (h : create_numerics st gG numerics rep0 = .ok (rep, stF, nr)) :
    (dget rep ("py_bisplev") ≠ none ∧
     dget rep ("bisplev") = dget rep ("py_bisplev") ∧
     dget (sread stF nr) ("bisplev") = dget rep ("py_bisplev") ∧
     dget rep ("splev") = dget rep ("py_splev") ∧
     dget (sread stF nr) ("splev") = dget rep ("py_splev") ∧
     dget rep ("lambertw") = dget rep ("py_lambertw") ∧
     dget (sread stF nr) ("lambertw") = dget rep ("py_lambertw")) := by
  obtain ⟨st1, st2, st3, st4, rep1, st5, rep2, st6, rep3, h1, h2, h3, h4,
    h5, h6, h7⟩ := create_numerics_ok_decomp st gG numerics rep0 rep stF nr h
  obtain ⟨hok, hnr, hst1⟩ := execModule_ok st numerics st1 nr h1
  have hlen1 : st1.mem.length = st.mem.length + 1 := by
    rw [hst1]
    simp
  obtain ⟨srcS2, gOldS, heqS2, hst2⟩ := rewriteSolver_ok st1 gG nr _ _ st2 h2
  have hlen2 : st2.mem.length = st1.mem.length := by
    rw [hst2, swrite_length, swrite_length]
  obtain ⟨srcB2, gOldB, heqB2, hst3⟩ := rewriteSolver_ok st2 gG nr _ _ st3 h3
  have hlen3 : st3.mem.length = st2.mem.length := by
    rw [hst3, swrite_length, swrite_length]
  have hlen4 : st4.mem.length = st3.mem.length :=
    compileNames_length nr _ _ st3 rep0 st4 rep1 h4
  have hnr4 : nr < st4.mem.length := by
    rw [hlen4, hlen3, hlen2, hlen1, hnr]
    exact Nat.lt_succ_self _
  obtain ⟨v5, hv5, hst5, hrep2⟩ := pyOverride1_ok st4 nr rep1 _ _ st5 rep2 h5
  obtain ⟨v6, hv6, hst6, hrep3⟩ := pyOverride1_ok st5 nr rep2 _ _ st6 rep3 h6
  obtain ⟨v7, hv7, hstF, hrepF⟩ := pyOverride1_ok st6 nr rep3 _ _ stF rep h7
  subst hst5
  subst hst6
  subst hstF
  subst hrep2
  subst hrep3
  subst hrepF
  have hpb : dget (dset (dset (dset rep1 ("bisplev") v5) ("splev") v6)
      ("lambertw") v7) ("py_bisplev") = some v5 := by
    rw [dget_dset_ne _ _ _ _ (by decide), dget_dset_ne _ _ _ _ (by decide),
      dget_dset_ne _ _ _ _ (by decide)]
    exact hv5
  have hps : dget (dset (dset (dset rep1 ("bisplev") v5) ("splev") v6)
      ("lambertw") v7) ("py_splev") = some v6 := by
    rw [dget_dset_ne _ _ _ _ (by decide), dget_dset_ne _ _ _ _ (by decide),
      dget_dset_ne _ _ _ _ (by decide)]
    rw [dget_dset_ne _ _ _ _ (by decide)] at hv6
    exact hv6
  have hpl : dget (dset (dset (dset rep1 ("bisplev") v5) ("splev") v6)
      ("lambertw") v7) ("py_lambertw") = some v7 := by
    rw [dget_dset_ne _ _ _ _ (by decide), dget_dset_ne _ _ _ _ (by decide),
      dget_dset_ne _ _ _ _ (by decide)]
    rw [dget_dset_ne _ _ _ _ (by decide), dget_dset_ne _ _ _ _ (by decide)]
      at hv7
    exact hv7
  have hnr5 : nr < (swrite st4 nr (dset (sread st4 nr) ("bisplev")
      v5)).mem.length := by
    rw [swrite_length]
    exact hnr4
  have hnr6 : nr < (swrite (swrite st4 nr (dset (sread st4 nr) ("bisplev")
      v5)) nr (dset (sread (swrite st4 nr (dset (sread st4 nr) ("bisplev")
      v5)) nr) ("splev") v6)).mem.length := by
    rw [swrite_length, swrite_length]
    exact hnr4
  have hreadF : sread (swrite (swrite (swrite st4 nr (dset (sread st4 nr)
      ("bisplev") v5)) nr (dset (sread (swrite st4 nr (dset (sread st4 nr)
      ("bisplev") v5)) nr) ("splev") v6)) nr (dset (sread (swrite (swrite
      st4 nr (dset (sread st4 nr) ("bisplev") v5)) nr (dset (sread (swrite
      st4 nr (dset (sread st4 nr) ("bisplev") v5)) nr) ("splev") v6)) nr)
      ("lambertw") v7)) nr =
      dset (dset (dset (sread st4 nr) ("bisplev") v5) ("splev") v6)
        ("lambertw") v7 := by
    rw [sread_swrite_same _ nr _ hnr6, sread_swrite_same _ nr _ hnr5,
      sread_swrite_same _ nr _ hnr4]
  refine ⟨?_, ?_, ?_, ?_, ?_, ?_, ?_⟩
  · rw [hpb]
    exact Option.noConfusion
  · rw [hpb, dget_dset_ne _ _ _ _ (by decide),
      dget_dset_ne _ _ _ _ (by decide), dget_dset_same]
  · rw [hpb, hreadF, dget_dset_ne _ _ _ _ (by decide),
      dget_dset_ne _ _ _ _ (by decide), dget_dset_same]
  · rw [hps, dget_dset_ne _ _ _ _ (by decide), dget_dset_same]
  · rw [hps, hreadF, dget_dset_ne _ _ _ _ (by decide), dget_dset_same]
  · rw [hpl, dget_dset_same]
  · rw [hpl, hreadF, dget_dset_same]

/-! Materializer claims. -/

theorem rowOk_cons (c : Cell) (cs : List Cell) :
    rowOk (Elem.erow (c :: cs)) = cellNum c := by
  cases c <;> rfl

theorem eligible_of_rows (xs : List Elem) (hne : xs ≠ [])
    (hrows : ∀ e ∈ xs, rowOk e = true) :
    eligibleArr (Obj.listO xs) = some (Obj.arrO xs) := by
  cases xs with
  | nil => exact absurd rfl hne
  | cons e rest =>
    show (if elemNum e = true then some (Obj.arrO (e :: rest))
      else if (e :: rest).all rowOk = true then some (Obj.arrO (e :: rest))
      else none) = some (Obj.arrO (e :: rest))
    by_cases he : elemNum e = true
    · rw [if_pos he]
    · rw [if_neg he, if_pos (List.all_eq_true.mpr hrows)]

theorem specRect_eligible (xs : List Elem)
    (h : specRectNumeric (Obj.listO xs) = true) :
    eligibleArr (Obj.listO xs) = some (Obj.arrO xs) := by
  cases xs with
  | nil => simp [specRectNumeric] at h
  | cons e rest =>
    simp only [specRectNumeric, Bool.or_eq_true] at h
    rcases h with h | h
    · have he : elemNum e = true := by
        rw [List.all_eq_true] at h
        exact h e (List.mem_cons_self e rest)
      show (if elemNum e = true then some (Obj.arrO (e :: rest))
        else if (e :: rest).all rowOk = true then some (Obj.arrO (e :: rest))
        else none) = some (Obj.arrO (e :: rest))
      rw [if_pos he]
    · cases e with
      | erow r0 =>
        rw [List.all_eq_true] at h
        refine eligible_of_rows _ (by simp) ?_
        intro x hx
        have hx2 := h x hx
        cases x with
        | erow rr =>
          simp only [Bool.and_eq_true, beq_iff_eq, Bool.not_eq_true',
            beq_eq_false_iff_ne, ne_eq, List.all_eq_true] at hx2
          obtain ⟨⟨hlen, hne0⟩, hall⟩ := hx2
          cases rr with
          | nil => simp at hne0
          | cons c cs =>
            rw [rowOk_cons]
            exact hall c (List.mem_cons_self c cs)
        | esc s => simp at hx2
        | eother t => simp at hx2
      | esc s => simp at h
      | eother t => simp at h

/-- Claim C3 (amended): the Array Materializer inspects only first elements.
A non-empty nested-list attribute all of whose elements are non-empty lists
with a numeric first element is converted with `np.array` even when it is
ragged or of mixed element kind; a nested literal is left untouched exactly
when it fails both first-element tests of lines 162-165.  In particular the
ragged `[[1,2],[3]]` does not remain an unconverted list. -/
theorem claim_C3_materializer_first_elements
    (d : Dict) (hnd : (dkeys d).Nodup) (k : String) (xs : List Elem)
    (hget : dget d k = some (Obj.listO xs)) :
    ((xs ≠ [] → (∀ e ∈ xs, rowOk e = true) →
        dget (dupd d (toDoOf d)) k = some (Obj.arrO xs)) ∧
     (eligibleArr (Obj.listO xs) = none →
        dget (dupd d (toDoOf d)) k = some (Obj.listO xs))) := by
  constructor
  · intro hne hrows
    refine dget_dupd_of_some d (toDoOf d) k _ (nodup_toDoOf d) ?_
    rw [dget_toDoOf d hnd k, hget]
    show eligibleArr (Obj.listO xs) = some (Obj.arrO xs)
    exact eligible_of_rows xs hne hrows
  · intro helig
    rw [dget_dupd_of_none d (toDoOf d) k ?_]
    · exact hget
    · rw [dget_toDoOf d hnd k, hget]
      exact helig

/-- Claim C3 counterexample: the ragged literal `[[1,2],[3]]` is converted
by the pipeline, not left untouched.  On the demo catalogue, whose friction
submodule binds `fd_table` to that ragged list, the friction snapshot ends
the run with `fd_table` bound to the dense-array object built from it. -/
theorem claim_C3_counterexample :
    (("fd_table", BDesc.valB (Obj.listO [Elem.erow [Cell.csc (Scalar.sint 1),
        Cell.csc (Scalar.sint 2)], Elem.erow [Cell.csc (Scalar.sint 3)]]))
      ∈ demoFriction.binds) ∧
    numbaImport stCanon [] demoNumerics ("fluids") demoCat =
      .ok demoImport ∧
    dget (sread demoImport.1 3) ("fd_table") =
      some (Obj.arrO [Elem.erow [Cell.csc (Scalar.sint 1),
        Cell.csc (Scalar.sint 2)], Elem.erow [Cell.csc (Scalar.sint 3)]]) :=
  ⟨by decide, rfl, by decide⟩

/-- Claim C3 witness: the amended first-element law evaluated on the ragged
dictionary. -/
theorem claim_C3_witness :
    dget (dupd demoRaggedDict (toDoOf demoRaggedDict)) ("tbl") =
      some (Obj.arrO [Elem.erow [Cell.csc (Scalar.sint 1),
        Cell.csc (Scalar.sint 2)], Elem.erow [Cell.csc (Scalar.sint 3)]]) :=
  (claim_C3_materializer_first_elements demoRaggedDict (by decide) ("tbl")
    [Elem.erow [Cell.csc (Scalar.sint 1), Cell.csc (Scalar.sint 2)],
     Elem.erow [Cell.csc (Scalar.sint 3)]] (by decide)).1
    (by decide) (by decide)

/-- Claim C4 (amended): a rectangular numeric literal — non-empty flat list
of numeric scalars, or non-empty equal-length non-empty rows of numeric
scalars, as described by the spec-side predicate `specRectNumeric` — is
replaced by the dense array object carrying the same elements in the same
order; an attribute failing both of the source's first-element tests
(`eligibleArr` yields nothing) passes through unchanged.  Attributes of
other kinds that happen to pass the first-element tests, such as
`[1, \x27x\x27]`, are however also converted (see the counterexample). -/
theorem claim_C4_materializer_rectangular
    (d : Dict) (hnd : (dkeys d).Nodup) (k : String) (o : Obj)
    (hget : dget d k = some o) :
    ((∀ xs, o = Obj.listO xs → specRectNumeric o = true →
        dget (dupd d (toDoOf d)) k = some (Obj.arrO xs)) ∧
     (eligibleArr o = none → dget (dupd d (toDoOf d)) k = some o)) := by
  constructor
  · intro xs ho hrect
    subst ho
    refine dget_dupd_of_some d (toDoOf d) k _ (nodup_toDoOf d) ?_
    rw [dget_toDoOf d hnd k, hget]
    show eligibleArr (Obj.listO xs) = some (Obj.arrO xs)
    exact specRect_eligible xs hrect
  · intro helig
    rw [dget_dupd_of_none d (toDoOf d) k ?_]
    · exact hget
    · rw [dget_toDoOf d hnd k, hget]
      exact helig

/-- Claim C4 counterexample: `[1, \x27x\x27]` is not a flat list of numeric
scalars (nor a rectangular one), yet the materializer does not pass it
through unchanged: it is converted because only the first element is
tested. -/
theorem claim_C4_counterexample :
    specRectNumeric (Obj.listO [Elem.esc (Scalar.sint 1),
      Elem.esc (Scalar.sstr ("x"))]) = false ∧
    dget demoMixedDict ("w") = some (Obj.listO [Elem.esc (Scalar.sint 1),
      Elem.esc (Scalar.sstr ("x"))]) ∧
    dget (dupd demoMixedDict (toDoOf demoMixedDict)) ("w") =
      some (Obj.arrO [Elem.esc (Scalar.sint 1),
        Elem.esc (Scalar.sstr ("x"))]) := by
  decide

/-- Claim C4 witness: the rectangular literal `[[1,2],[3,4]]` becomes the
2x2 dense array with element order preserved, and the non-list attribute
`tag` passes through unchanged. -/
theorem claim_C4_witness :
    (dget (dupd demoRectDict (toDoOf demoRectDict)) ("arr2") =
      some (Obj.arrO [Elem.erow [Cell.csc (Scalar.sint 1),
        Cell.csc (Scalar.sint 2)],
        Elem.erow [Cell.csc (Scalar.sint 3), Cell.csc (Scalar.sint 4)]]) ∧
     dget (dupd demoRectDict (toDoOf demoRectDict)) ("tag") =
      some (Obj.otherO 7)) :=
  ⟨(claim_C4_materializer_rectangular demoRectDict (by decide) ("arr2")
      (Obj.listO [Elem.erow [Cell.csc (Scalar.sint 1),
        Cell.csc (Scalar.sint 2)],
        Elem.erow [Cell.csc (Scalar.sint 3), Cell.csc (Scalar.sint 4)]])
      (by decide)).1 _ rfl (by decide),
   (claim_C4_materializer_rectangular demoRectDict (by decide) ("tag")
      (Obj.otherO 7) (by decide)).2 (by decide)⟩

/-- Claim C9: the source rewriting of the solvers `secant` and `brenth`
changes the textual default of their `ytol` parameter from `None` to
`1e100`: in the modelled solver sources the `ytol` default reads `None`
before the rewrite and `1e100` after it, and no `ytol=None` text survives
`patchSolver`, so a call omitting `ytol` runs the rewritten solver with
`ytol=1e100` where the original ran with `ytol=None`. -/
theorem claim_C9_ytol_default_change :
    (defaultOf ("ytol") srcSecant = some ("None") ∧
     defaultOf ("ytol") (patchSolver srcSecant) = some ("1e100") ∧
     strContains (patchSolver srcSecant) ("ytol=None") = false ∧
     defaultOf ("ytol") srcBrenth = some ("None") ∧
     defaultOf ("ytol") (patchSolver srcBrenth) = some ("1e100") ∧
     strContains (patchSolver srcBrenth) ("ytol=None") = false) := by
  decide

/-! Transform-level claims. -/

/-- Claim C1: after every submodule has been transformed — at the end of
`transform_module`, whose final loop (lines 178-179) updates every snapshot
dictionary, the very dictionaries serving as `py_func.__globals__` of the
functions compiled from them, with the whole `__funcs` ledger, on top of the
per-module seeding with `replaced` (lines 136 and 171-175) — the full
rebinding ledger `replaced` overridden by `__funcs` (all compiled functions,
rewritten functions and materialized arrays) is visible through the private
global-lookup scope of every natively-compiled function: whenever the ledger
resolves a name to an accelerated object `B`, the lookup scope of any
compiled function `A` resolves that name to that same accelerated `B`,
never to the original. -/
theorem claim_C1_full_ledger_reaches_compiled_scopes
    (pkg : String) (cat : List ModOrigin) (st0 : Store) (funcs0 rep : Dict)
    (ts' : TState)
    (h : transform_module pkg cat st0 funcs0 rep false = .ok ts')
    (hwf0 : storeWF st0) (hf0nd : (dkeys funcs0).Nodup)
    (hf0noMod : dvalsP notModP funcs0)
    (hrepNd : (dkeys rep).Nodup)
    (hrepNoFunc : dvalsP notFuncP rep)
    (hrepNoMod : dvalsP notModP rep)
    (hlf : localFuncs cat) (hnm : noModBinds cat) :
    ∀ t ∈ ts'.newObjs, ∀ n v, dget (dupd rep ts'.funcs) n = some v →
      dget (sread ts'.st t.pyGlobals) n = some v := by
  intro t ht n v hn
  obtain ⟨c1, c2, c3, c4, c5, c6, c7, c8, c9, c10⟩ := transform_module_main
    pkg cat st0 funcs0 rep ts' h hwf0 hf0nd hf0noMod hrepNd hrepNoFunc
    hrepNoMod hlf hnm
  obtain ⟨src, g, hjit, hg⟩ := c6 t ht
  rw [hjit]
  exact c9 g hg n v hn

/-- Claim C8: each snapshot is a brand-new module dictionary executed from
the module's origin.  The snapshot references of a successful
`transform_module` run are pairwise distinct and lie outside the
pre-existing store, every canonical dictionary is left byte-for-byte
unchanged by the whole run, and overwriting one snapshot's dictionary
leaves every other reference untouched — no two snapshots share mutable
attribute-table state, and mutating a snapshot affects neither the
canonical modules nor any sibling snapshot. -/
theorem claim_C8_snapshot_isolation
    (pkg : String) (cat : List ModOrigin) (st0 : Store) (funcs0 rep : Dict)
    (ts' : TState)
    (h : transform_module pkg cat st0 funcs0 rep false = .ok ts')
    (hwf0 : storeWF st0) (hf0nd : (dkeys funcs0).Nodup)
    (hf0noMod : dvalsP notModP funcs0)
    (hrepNd : (dkeys rep).Nodup)
    (hrepNoFunc : dvalsP notFuncP rep)
    (hrepNoMod : dvalsP notModP rep)
    (hlf : localFuncs cat) (hnm : noModBinds cat) :
    (ts'.newMods.Nodup ∧
     (∀ r ∈ ts'.newMods, st0.mem.length ≤ r) ∧
     (∀ r, r < st0.mem.length → sread ts'.st r = sread st0 r) ∧
     (∀ r ∈ ts'.newMods, ∀ d : Dict, ∀ r2, r2 ≠ r →
        sread (swrite ts'.st r d) r2 = sread ts'.st r2)) := by
  obtain ⟨c1, c2, c3, c4, c5, c6, c7, c8, c9, c10⟩ := transform_module_main
    pkg cat st0 funcs0 rep ts' h hwf0 hf0nd hf0noMod hrepNd hrepNoFunc
    hrepNoMod hlf hnm
  exact ⟨c4, fun r hr => (c5 r hr).1, c3,
    fun r _ d r2 hr2 => sread_swrite_ne ts'.st r r2 d hr2⟩

/-! Import-level decomposition and claims. -/

theorem numbaImport_ok_decomp (st0 : Store) (g0 : Dict)
    (numerics : ModOrigin) (pkg : String) (cat : List ModOrigin)
    (stF : Store) (gG : Nat) (funcsF repF : Dict)
    (h : numbaImport st0 g0 numerics pkg cat = .ok (stF, gG, funcsF, repF)) :
    gG = st0.mem.length ∧
    ∃ stA nr ts cl fr,
      create_numerics ⟨st0.mem ++ [g0]⟩ st0.mem.length numerics
        [("sum", Obj.otherO 0)] = .ok (repF, stA, nr) ∧
      transform_module pkg cat stA [] repF false = .ok ts ∧
      dget ts.funcs ("Clamond") = some cl ∧
      dget ts.funcs ("friction") = some (.modO fr) ∧
      funcsF = dset ts.funcs ("Colebrook") cl ∧
      stF = swrite (swrite ts.st fr (dset (sread ts.st fr) ("Colebrook")
          cl)) st0.mem.length
        (dupd (dupd (sread (swrite ts.st fr (dset (sread ts.st fr)
          ("Colebrook") cl)) st0.mem.length)
          (dset ts.funcs ("Colebrook") cl)) repF) := by
  unfold numbaImport at h
  dsimp only [] at h
  split at h
  · exact absurd h (by simp)
  rename_i rep stA nr hcn
  split at h
  · exact absurd h (by simp)
  rename_i ts htm
  split at h
  · exact absurd h (by simp)
  rename_i cl hcl
  split at h
  · rename_i fr hfr
    injection h with h1
    injection h1 with ha hb
    injection hb with hb1 hc
    injection hc with hc1 hc2
    subst hb1
    subst hc2
    exact ⟨rfl, stA, nr, ts, cl, fr, hcn, htm, hcl, hfr, hc1.symm,
      ha.symm⟩
  · exact absurd h (by simp)
  · exact absurd h (by simp)

/-- Claim C2 (amended): every name on any snapshot's export list (`__all__`
plus `__numba_additional_funcs__`) ends up as a key of the published
namespace — the fluids.numba globals dictionary after
`globals().update(__funcs)` and `globals().update(replaced)` — but the
published key set is in general a proper superset of that union: it also
contains the snapshot short names, the names of materialized non-exported
attributes, the keys of `replaced`, the late alias `Colebrook`, and the
module's own pre-existing globals (see the counterexample). -/
theorem claim_C2_published_superset
    (st0 : Store) (g0 : Dict) (numerics : ModOrigin) (pkg : String)
    (cat : List ModOrigin) (stF : Store) (gG : Nat) (funcsF repF : Dict)
    (h : numbaImport st0 g0 numerics pkg cat = .ok (stF, gG, funcsF, repF))
    (hwf0 : storeWF st0) (hg0nd : (dkeys g0).Nodup)
    (hlf : localFuncs cat) (hnm : noModBinds cat)
    (m : ModOrigin) (hm : m ∈ cat) (n : String) (hn : n ∈ namesOf m) :
    dget (sread stF gG) n ≠ none := by
  obtain ⟨hgG, stA, nr, ts, cl, fr, hcn, htm, hcl, hfr, hfuncsF, hstF⟩ :=
    numbaImport_ok_decomp st0 g0 numerics pkg cat stF gG funcsF repF h
  have hwfG : storeWF (⟨st0.mem ++ [g0]⟩ : Store) :=
    storeWF_appendStore st0.mem g0 hwf0 hg0nd
  have hgGlt : st0.mem.length < (⟨st0.mem ++ [g0]⟩ : Store).mem.length := by
    simp
  obtain ⟨cnWF, cnLen, cnNr, cnNd, cnNF, cnNM⟩ := create_numerics_main
    ⟨st0.mem ++ [g0]⟩ st0.mem.length numerics [("sum", Obj.otherO 0)] repF
    stA nr hcn hwfG hgGlt (by decide) (by decide) (by decide)
  obtain ⟨c1, c2, c3, c4, c5, c6, c7, c8, c9, c10⟩ := transform_module_main
    pkg cat stA [] repF ts htm cnWF (by decide) (by decide) cnNd cnNF cnNM
    hlf hnm
  have hfn : dget ts.funcs n ≠ none := c10 m hm n hn
  have hfn2 : dget funcsF n ≠ none := by
    rw [hfuncsF]
    exact dget_dset_ne_none ts.funcs _ n cl hfn
  have hgGlt2 : gG < (swrite ts.st fr (dset (sread ts.st fr) ("Colebrook")
      cl)).mem.length := by
    rw [swrite_length, hgG]
    have h1 : st0.mem.length < stA.mem.length := by
      have h2 : (⟨st0.mem ++ [g0]⟩ : Store).mem.length ≤ stA.mem.length :=
        cnLen
      have h3 : st0.mem.length < (⟨st0.mem ++ [g0]⟩ : Store).mem.length :=
        hgGlt
      exact Nat.lt_of_lt_of_le h3 h2
    exact Nat.lt_of_lt_of_le h1 c2
  have hread : sread stF gG =
      dupd (dupd (sread (swrite ts.st fr (dset (sread ts.st fr)
        ("Colebrook") cl)) st0.mem.length) funcsF) repF := by
    rw [hstF, hfuncsF, ← hgG]
    exact sread_swrite_same _ gG _ hgGlt2
  rw [hread]
  refine dget_dupd_ne_none_left _ repF n ?_
  refine dget_dupd_ne_none_right _ funcsF n ?_
  exact (dget_isSome_iff funcsF n).mp hfn2

/-- Claim C5: the alias override of line 185 is applied after the generic
per-submodule pass:  `__funcs['friction'].Colebrook = __funcs['Colebrook'] =
__funcs['Clamond']` makes the published entry for `Colebrook` — both in the
flat namespace and as an attribute of the friction snapshot — the exact
same object as the entry for its canonical counterpart `Clamond`,
overwriting any value the generic pass recorded for `Colebrook`. -/
theorem claim_C5_colebrook_alias
    (st0 : Store) (g0 : Dict) (numerics : ModOrigin) (pkg : String)
    (cat : List ModOrigin) (stF : Store) (gG : Nat) (funcsF repF : Dict)
    (h : numbaImport st0 g0 numerics pkg cat = .ok (stF, gG, funcsF, repF))
    (hwf0 : storeWF st0) (hg0nd : (dkeys g0).Nodup)
    (hlf : localFuncs cat) (hnm : noModBinds cat)
    (hrepCB : dget repF ("Colebrook") = none)
    (hrepCL : dget repF ("Clamond") = none) :
    (dget funcsF ("Clamond") ≠ none ∧
     dget funcsF ("Colebrook") = dget funcsF ("Clamond") ∧
     dget (sread stF gG) ("Colebrook") = dget funcsF ("Clamond") ∧
     dget (sread stF gG) ("Clamond") = dget funcsF ("Clamond") ∧
     (∀ fr2, dget funcsF ("friction") = some (.modO fr2) →
        dget (sread stF fr2) ("Colebrook") = dget funcsF ("Clamond"))) := by
  obtain ⟨hgG, stA, nr, ts, cl, fr, hcn, htm, hcl, hfr, hfuncsF, hstF⟩ :=
    numbaImport_ok_decomp st0 g0 numerics pkg cat stF gG funcsF repF h
  have hwfG : storeWF (⟨st0.mem ++ [g0]⟩ : Store) :=
    storeWF_appendStore st0.mem g0 hwf0 hg0nd
  have hgGlt : st0.mem.length < (⟨st0.mem ++ [g0]⟩ : Store).mem.length := by
    simp
  obtain ⟨cnWF, cnLen, cnNr, cnNd, cnNF, cnNM⟩ := create_numerics_main
    ⟨st0.mem ++ [g0]⟩ st0.mem.length numerics [("sum", Obj.otherO 0)] repF
    stA nr hcn hwfG hgGlt (by decide) (by decide) (by decide)
  obtain ⟨c1, c2, c3, c4, c5, c6, c7, c8, c9, c10⟩ := transform_module_main
    pkg cat stA [] repF ts htm cnWF (by decide) (by decide) cnNd cnNF cnNM
    hlf hnm
  have hstAgt : st0.mem.length < stA.mem.length :=
    Nat.lt_of_lt_of_le hgGlt cnLen
  have hfrMods : fr ∈ ts.newMods := c7 ("friction") fr hfr
  have hfrge : stA.mem.length ≤ fr := (c5 fr hfrMods).1
  have hfrlt : fr < ts.st.mem.length := (c5 fr hfrMods).2
  have hfrne : fr ≠ st0.mem.length := by
    intro hh
    rw [hh] at hfrge
    exact absurd hstAgt (Nat.not_lt.mpr hfrge)
  have hfCL : dget funcsF ("Clamond") = some cl := by
    rw [hfuncsF, dget_dset_ne _ _ _ _ (by decide)]
    exact hcl
  have hfCB : dget funcsF ("Colebrook") = some cl := by
    rw [hfuncsF]
    exact dget_dset_same _ _ _
  have hfndF : (dkeys funcsF).Nodup := by
    rw [hfuncsF]
    exact nodup_dset ts.funcs _ cl c8
  have hgGlt2 : gG < (swrite ts.st fr (dset (sread ts.st fr) ("Colebrook")
      cl)).mem.length := by
    rw [swrite_length, hgG]
    exact Nat.lt_of_lt_of_le hstAgt c2
  have hread : sread stF gG =
      dupd (dupd (sread (swrite ts.st fr (dset (sread ts.st fr)
        ("Colebrook") cl)) st0.mem.length) funcsF) repF := by
    rw [hstF, hfuncsF, ← hgG]
    exact sread_swrite_same _ gG _ hgGlt2
  refine ⟨by rw [hfCL]; exact Option.noConfusion, by rw [hfCB, hfCL], ?_,
    ?_, ?_⟩
  · rw [hread, hfCL, dget_dupd_of_none _ repF _ hrepCB]
    exact dget_dupd_of_some _ funcsF _ cl hfndF hfCB
  · rw [hread, hfCL, dget_dupd_of_none _ repF _ hrepCL]
    exact dget_dupd_of_some _ funcsF _ cl hfndF hfCL
  · intro fr2 hfr2
    have hfr2eq : fr2 = fr := by
      rw [hfuncsF, dget_dset_ne _ _ _ _ (by decide), hfr] at hfr2
      exact (Obj.modO.inj (Option.some.inj hfr2)).symm
    have hne2 : fr ≠ gG := by
      rw [hgG]
      exact hfrne
    rw [hfr2eq, hfCL, hstF, ← hgG, sread_swrite_ne _ gG fr _ hne2,
      sread_swrite_same ts.st fr _ hfrlt]
    exact dget_dset_same _ _ _

/-! Failure propagation. -/

theorem transformGo_append_ok (pkg : String) (rep : Dict) (vec : Bool)
    (a : List ModOrigin) :
    ∀ (b : List ModOrigin) (ts ts1 : TState),
    transformGo pkg rep vec a ts = .ok ts1 →
    transformGo pkg rep vec (a ++ b) ts = transformGo pkg rep vec b ts1 := by
  induction a with
  | nil =>
    intro b ts ts1 ha
    rw [transformGo] at ha
    injection ha with h1
    subst h1
    rfl
  | cons m rest ih =>
    intro b ts ts1 ha
    rw [transformGo] at ha
    split at ha
    · exact absurd ha (by simp)
    rename_i ts2 hp
    rw [List.cons_append, transformGo, hp]
    exact ih b ts2 ts1 ha

theorem transformGo_fail_head (pkg : String) (rep : Dict) (vec : Bool)
    (bad : ModOrigin) (rest : List ModOrigin) (ts : TState)
    (hbad : bad.runOk = false) :
    transformGo pkg rep vec (bad :: rest) ts =
      .error (.execErr bad.errTok) := by
  have hp : processMod pkg rep vec ts bad = .error (.execErr bad.errTok) := by
    unfold processMod
    rw [execModule_err ts.st bad hbad]
  rw [transformGo, hp]

/-- Claim C7 (amended): if any single submodule's isolated top-level
execution fails — here, the first failing module `bad` after a successfully
processed prefix `pre` — the whole import aborts: `numbaImport` returns an
error, so nothing is ever published (the `globals().update` lines are never
reached), and the caller-visible failure is exactly the exception raised by
the failing submodule's own top level, propagated unchanged rather than
wrapped into an aggregate error identifying the submodule and symbol. -/
theorem claim_C7_abort_propagates_raw_error
    (st0 : Store) (g0 : Dict) (numerics : ModOrigin) (pkg : String)
    (pre rest2 : List ModOrigin) (bad : ModOrigin)
    (rep : Dict) (stA : Store) (nr : Nat) (ts1 : TState)
    (hcn : create_numerics ⟨st0.mem ++ [g0]⟩ st0.mem.length numerics
      [("sum", Obj.otherO 0)] = .ok (rep, stA, nr))
    (hpre : transformGo pkg rep false pre ⟨stA, [], [], []⟩ = .ok ts1)
    (hbad : bad.runOk = false) :
    numbaImport st0 g0 numerics pkg (pre ++ bad :: rest2) =
      .error (.execErr bad.errTok) := by
  have hgo : transformGo pkg rep false (pre ++ bad :: rest2)
      ⟨stA, [], [], []⟩ = .error (.execErr bad.errTok) := by
    rw [transformGo_append_ok pkg rep false pre (bad :: rest2)
      ⟨stA, [], [], []⟩ ts1 hpre]
    exact transformGo_fail_head pkg rep false bad rest2 ts1 hbad
  have htm : transform_module pkg (pre ++ bad :: rest2) stA [] rep false =
      .error (.execErr bad.errTok) := by
    unfold transform_module
    rw [hgo]
  unfold numbaImport
  dsimp only []
  rw [hcn]
  show (match transform_module pkg (pre ++ bad :: rest2) stA [] rep false
        with
      | .error e => (.error e : Except PErr (Store × Nat × Dict × Dict))
      | .ok ts =>
        match dget ts.funcs ("Clamond") with
        | none => .error (.keyErr ("Clamond"))
        | some cl =>
          match dget ts.funcs ("friction") with
          | some (.modO fr) =>
            .ok (swrite (swrite ts.st fr (dset (sread ts.st fr)
                ("Colebrook") cl)) st0.mem.length
                (dupd (dupd (sread (swrite ts.st fr (dset (sread ts.st fr)
                  ("Colebrook") cl)) st0.mem.length)
                  (dset ts.funcs ("Colebrook") cl)) rep),
              st0.mem.length, dset ts.funcs ("Colebrook") cl, rep)
          | some _ => .error (.keyErr ("friction"))
          | none => .error (.keyErr ("friction"))) =
      .error (.execErr bad.errTok)
  rw [htm]

/-! Witnesses and counterexamples for the transform- and import-level
claims. -/

/-- Claim C1 witness: on the demo catalogue, the compiled `Clamond`
dispatcher from the friction snapshot (lookup scope 1) resolves `Reynolds`
— compiled later, from the core submodule — to the accelerated dispatcher,
not the original function. -/
theorem claim_C1_witness :
    dget (sread demoTM.st 1) ("Reynolds") =
      some (Obj.jitO ("def Reynolds(V, D, rho, mu): return V*D*rho/mu") 2) :=
  claim_C1_full_ledger_reaches_compiled_scopes ("fluids") demoCat stCanon
    [] [("sum", Obj.otherO 0)] demoTM rfl (by decide) (by decide)
    (by decide) (by decide) (by decide) (by decide) (by decide) (by decide)
    (Obj.jitO ("def Clamond(Re, eD, fast=False): return Re") 1) (by decide)
    ("Reynolds")
    (Obj.jitO ("def Reynolds(V, D, rho, mu): return V*D*rho/mu") 2)
    (by decide)

/-- Claim C8 witness: on the demo run the snapshot references are distinct
and the canonical module dictionary at reference 0 is unchanged. -/
theorem claim_C8_witness :
    (demoTM.newMods.Nodup ∧ sread demoTM.st 0 = sread stCanon 0) := by
  have h := claim_C8_snapshot_isolation ("fluids") demoCat stCanon []
    [("sum", Obj.otherO 0)] demoTM rfl (by decide) (by decide) (by decide)
    (by decide) (by decide) (by decide) (by decide) (by decide)
  exact ⟨h.1, h.2.2.1 0 (by decide)⟩

/-- Claim C2 counterexample: the published key set is not equal to the
union of the snapshots' export lists: on the demo run the snapshot short
name `friction` — exported by no snapshot — is a published key bound to the
friction snapshot module object. -/
theorem claim_C2_counterexample :
    numbaImport stCanon [] demoNumerics ("fluids") demoCat =
      .ok demoImport ∧
    dget (sread demoImport.1 demoImport.2.1) ("friction") =
      some (Obj.modO 3) ∧
    ¬ ("friction" ∈ namesOf demoNumerics ++
        (namesOf demoFriction ++ namesOf demoCore)) :=
  ⟨rfl, by decide, by decide⟩

/-- Claim C2 witness: an exported name of the demo catalogue, `Clamond`, is
present in the published namespace. -/
theorem claim_C2_witness :
    dget (sread demoImport.1 demoImport.2.1) ("Clamond") ≠ none :=
  claim_C2_published_superset stCanon [] demoNumerics ("fluids") demoCat
    demoImport.1 demoImport.2.1 demoImport.2.2.1 demoImport.2.2.2 rfl
    (by decide) (by decide) (by decide) (by decide) demoFriction
    (by decide) ("Clamond") (by decide)

/-- Claim C5 witness: on the demo run the published `Colebrook` and the
friction snapshot's `Colebrook` attribute are the very entry recorded for
`Clamond`. -/
theorem claim_C5_witness :
    (dget (sread demoImport.1 demoImport.2.1) ("Colebrook") =
       dget demoImport.2.2.1 ("Clamond") ∧
     dget (sread demoImport.1 3) ("Colebrook") =
       dget demoImport.2.2.1 ("Clamond")) := by
  have h := claim_C5_colebrook_alias stCanon [] demoNumerics ("fluids")
    demoCat demoImport.1 demoImport.2.1 demoImport.2.2.1 demoImport.2.2.2
    rfl (by decide) (by decide) (by decide) (by decide) (by decide)
    (by decide)
  exact ⟨h.2.2.1, h.2.2.2.2 3 (by decide)⟩

/-- Claim C6 witness: on the demo numerics snapshot both solvers end up, in
the snapshot and in the ledger, as dispatchers whose `py_func` carries the
patched source text closing over the fluids.numba globals (reference 1). -/
theorem claim_C6_witness :
    (dget (sread demoCN.2.1 demoCN.2.2) ("secant") =
       some (Obj.jitO (patchSolver srcSecant) 1) ∧
     dget demoCN.1 ("secant") = some (Obj.jitO (patchSolver srcSecant) 1) ∧
     dget (sread demoCN.2.1 demoCN.2.2) ("brenth") =
       some (Obj.jitO (patchSolver srcBrenth) 1) ∧
     dget demoCN.1 ("brenth") = some (Obj.jitO (patchSolver srcBrenth) 1)) :=
  claim_C6_source_rewriter ⟨stCanon.mem ++ [[]]⟩ 1 demoNumerics
    [("sum", Obj.otherO 0)] demoCN.1 demoCN.2.1 demoCN.2.2 srcSecant
    srcBrenth (by rfl) (by decide) (by decide) (by decide) (by decide)
    (by decide) (by decide) (by decide)

/-- Claim C7 counterexample: the caller-visible failure does not identify
the failing submodule: two catalogues whose (differently named) sole
submodule fails with the same exception token produce byte-for-byte the
same caller-visible error, and no namespace is published in either run. -/
theorem claim_C7_counterexample :
    numbaImport stCanon [] demoNumerics ("fluids") [demoBadA] =
      .error (.execErr 7) ∧
    numbaImport stCanon [] demoNumerics ("fluids") [demoBadB] =
      .error (.execErr 7) ∧
    demoBadA.modName ≠ demoBadB.modName :=
  ⟨rfl, rfl, by decide⟩

/-- Claim C7 witness: with the failing module placed after the friction
module, the import aborts with exactly the failing module's own exception
token. -/
theorem claim_C7_witness :
    numbaImport stCanon [] demoNumerics ("fluids")
      [demoFriction, demoBadA, demoCore] = .error (.execErr 7) :=
  claim_C7_abort_propagates_raw_error stCanon [] demoNumerics ("fluids")
    [demoFriction] [demoCore] demoBadA demoCN.1 demoCN.2.1 demoCN.2.2
    demoGoPre rfl rfl (by decide)

/-- Claim C10 witness: the `py_` overrides evaluated on the demo numerics
snapshot. -/
theorem claim_C10_witness :
    (dget demoCN.1 ("py_bisplev") ≠ none ∧
     dget demoCN.1 ("bisplev") = dget demoCN.1 ("py_bisplev") ∧
     dget (sread demoCN.2.1 demoCN.2.2) ("bisplev") =
       dget demoCN.1 ("py_bisplev") ∧
     dget demoCN.1 ("splev") = dget demoCN.1 ("py_splev") ∧
     dget (sread demoCN.2.1 demoCN.2.2) ("splev") =
       dget demoCN.1 ("py_splev") ∧
     dget demoCN.1 ("lambertw") = dget demoCN.1 ("py_lambertw") ∧
     dget (sread demoCN.2.1 demoCN.2.2) ("lambertw") =
       dget demoCN.1 ("py_lambertw")) :=
  claim_C10_py_overrides ⟨stCanon.mem ++ [[]]⟩ 1 demoNumerics
    [("sum", Obj.otherO 0)] demoCN.1 demoCN.2.1 demoCN.2.2 (by rfl)
